import Mathlib

/-!
Verification of `sandbox.py` (McIndi/ans_dev_sandbox_playbook): a shallow
embedding of the sandbox CLI's pure logic — the `.env` configuration store,
interpreter selection, container-runtime detection, SSH key provisioning,
and the `activate`/`run` workflows — together with theorems settling the
spec's claims about them.

Strings are modelled as `List Char` (`Str`); Python text operations
(`str.strip`, `str.splitlines`, `int(...)`) are embedded for the ASCII
character ranges the program manipulates.  Python dicts are association
lists with insertion-order update semantics.  External subprocesses
(container engine, ssh-keygen, ansible) are opaque: each is modelled by an
outcome flag plus an event appended to a trace.
-/

namespace Sandbox

/-- Strings of the model: Python `str` as a list of characters. -/
abbrev Str := List Char

/-- Characters Python's default `str.strip()` removes (the ASCII whitespace
subset; the program only handles ASCII configuration text). -/
def pyIsSpace (c : Char) : Bool :=
  c = ' ' || c = '\t' || c = '\n' || c = '\r' || c = '\x0b' || c = '\x0c'

/-- Python `str.strip()`: drop leading and trailing whitespace. -/
def pyStrip (s : Str) : Str :=
  ((s.dropWhile pyIsSpace).reverse.dropWhile pyIsSpace).reverse

/-- The single-character line boundaries of Python `str.splitlines` that can
occur in ASCII text (`\r\n` is additionally treated as one boundary). -/
def isLineBoundary (c : Char) : Bool :=
  c = '\n' || c = '\r' || c = '\x0b' || c = '\x0c' ||
  c = '\x1c' || c = '\x1d' || c = '\x1e' || c = '\x85'

/-- Worker for `pySplitlines`: split at every line boundary, always emitting
the trailing (possibly empty) piece.  `afterCR` records that the previous
character was a `\r` whose boundary was already emitted, so that a directly
following `\n` extends the same `\r\n` boundary instead of opening one. -/
def splitlinesGo : Str → Str → Bool → List Str
  | [], acc, _ => [acc.reverse]
  | c :: rest, acc, afterCR =>
    if afterCR && c = '\n' then splitlinesGo rest [] false
    else if c = '\r' then acc.reverse :: splitlinesGo rest [] true
    else if isLineBoundary c then acc.reverse :: splitlinesGo rest [] false
    else splitlinesGo rest (c :: acc) false

/-- Python `str.splitlines()`: split at line boundaries; a terminal boundary
produces no trailing empty line; the empty string has no lines. -/
def pySplitlines (s : Str) : List Str :=
  if s = [] then []
  else
    let parts := splitlinesGo s [] false
    match s.getLast? with
    | some c => if isLineBoundary c then parts.dropLast else parts
    | none => parts

/-- Digit run of Python `int(...)`: digits with single underscores strictly
between digits (PEP 515); `none` when malformed. -/
def pyDigitsGo (acc : Nat) : Str → Option Nat
  | [] => some acc
  | '_' :: c :: rest =>
    if c.isDigit then pyDigitsGo (acc * 10 + (c.toNat - '0'.toNat)) rest else none
  | c :: rest =>
    if c.isDigit then pyDigitsGo (acc * 10 + (c.toNat - '0'.toNat)) rest else none

/-- A nonempty digit run (underscores allowed between digits). -/
def pyDigits : Str → Option Nat
  | [] => none
  | c :: rest =>
    if c.isDigit then pyDigitsGo (c.toNat - '0'.toNat) rest else none

/-- Python `int(str)` on ASCII decimal text: surrounding whitespace is
stripped, an optional sign precedes the digits; `none` models `ValueError`. -/
def pyInt (s : Str) : Option Int :=
  match pyStrip s with
  | '-' :: rest => (pyDigits rest).map (fun n => -(n : Int))
  | '+' :: rest => (pyDigits rest).map (fun n => (n : Int))
  | t => (pyDigits t).map (fun n => (n : Int))

/-- Python truthiness of an optional string (`None` and `""` are falsy). -/
def pyTruthy : Option Str → Bool
  | none => false
  | some s => !s.isEmpty

/-- Python `a or b` where `a` is an optional string and `b` a string:
`a` wins exactly when it is truthy. -/
def pyOrStr (a : Option Str) (b : Str) : Str :=
  match a with
  | some s => if s.isEmpty then b else s
  | none => b

/-- `str(path / name)`: POSIX path join. -/
def pathJoin (a b : Str) : Str := a ++ '/' :: b

/-! ### Python dicts as association lists

A Python `dict` keeps each key once; assigning an existing key replaces its
value in place, a new key is appended.  `EnvMap` models the string-to-string
dicts the program passes around. -/

/-- A Python `Dict[str, str]`. -/
abbrev EnvMap := List (Str × Str)

/-- `d[k]` / `d.get(k)`: the value at the key's (unique) slot. -/
def dictGet : EnvMap → Str → Option Str
  | [], _ => none
  | p :: rest, k => if p.1 = k then some p.2 else dictGet rest k

/-- `d[k] = v`: replace the key's slot in place, or append a new key. -/
def dictSet : EnvMap → Str → Str → EnvMap
  | [], k, v => [(k, v)]
  | p :: rest, k, v => if p.1 = k then (k, v) :: rest else p :: dictSet rest k v

/-- `d.update(other)`: assign every pair of `other` in order. -/
def dictUpdate (d other : EnvMap) : EnvMap :=
  other.foldl (fun acc p => dictSet acc p.1 p.2) d

/-- `del`-style removal (`Path.unlink` on the filesystem model). -/
def dictErase (d : EnvMap) (k : Str) : EnvMap :=
  d.filter (fun p => p.1 ≠ k)

/-- The keys of a dict, in insertion order. -/
def dictKeys (d : EnvMap) : List Str := d.map (·.1)

theorem dictGet_dictSet_self (d : EnvMap) (k v : Str) :
    dictGet (dictSet d k v) k = some v := by
  induction d with
  | nil => simp [dictGet, dictSet]
  | cons p rest ih =>
    by_cases hp : p.1 = k
    · simp [dictGet, dictSet, hp]
    · simp [dictGet, dictSet, hp, ih]

theorem dictGet_dictSet_ne (d : EnvMap) (k v k' : Str) (h : k' ≠ k) :
    dictGet (dictSet d k v) k' = dictGet d k' := by
  have hk : ¬(k = k') := fun he => h he.symm
  induction d with
  | nil =>
    simp only [dictSet, dictGet]
    rw [if_neg hk]
  | cons p rest ih =>
    by_cases hp : p.1 = k
    · simp only [dictSet, if_pos hp, dictGet]
      rw [if_neg hk, if_neg (show ¬(p.1 = k') by rw [hp]; exact hk)]
    · simp only [dictSet, if_neg hp, dictGet]
      by_cases hp' : p.1 = k'
      · rw [if_pos hp', if_pos hp']
      · rw [if_neg hp', if_neg hp', ih]

theorem dictGet_dictErase_self (d : EnvMap) (k : Str) :
    dictGet (dictErase d k) k = none := by
  induction d with
  | nil => rfl
  | cons p rest ih =>
    by_cases hp : p.1 = k
    · have h1 : dictErase (p :: rest) k = dictErase rest k := by
        simp [dictErase, List.filter_cons, hp]
      rw [h1]
      exact ih
    · have h1 : dictErase (p :: rest) k = p :: dictErase rest k := by
        simp [dictErase, List.filter_cons, hp]
      rw [h1]
      simp only [dictGet]
      rw [if_neg hp]
      exact ih

theorem dictGet_dictErase_ne (d : EnvMap) (k k' : Str) (h : k' ≠ k) :
    dictGet (dictErase d k) k' = dictGet d k' := by
  induction d with
  | nil => rfl
  | cons p rest ih =>
    by_cases hp : p.1 = k
    · have h1 : dictErase (p :: rest) k = dictErase rest k := by
        simp [dictErase, List.filter_cons, hp]
      have h2 : dictGet (p :: rest) k' = dictGet rest k' := by
        simp only [dictGet]
        rw [if_neg (show ¬(p.1 = k') by rw [hp]; exact fun he => h he.symm)]
      rw [h1, h2]
      exact ih
    · have h1 : dictErase (p :: rest) k = p :: dictErase rest k := by
        simp [dictErase, List.filter_cons, hp]
      rw [h1]
      simp only [dictGet]
      by_cases hp' : p.1 = k'
      · rw [if_pos hp', if_pos hp']
      · rw [if_neg hp', if_neg hp', ih]

theorem dictSet_append_of_not_mem (d : EnvMap) (k v : Str) (h : k ∉ dictKeys d) :
    dictSet d k v = d ++ [(k, v)] := by
  induction d with
  | nil => simp [dictSet]
  | cons p rest ih =>
    simp only [dictKeys, List.map_cons, List.mem_cons] at h
    push_neg at h
    rw [dictSet, if_neg (fun he => h.1 he.symm), List.cons_append,
      ih (by simpa [dictKeys] using h.2)]

theorem dictGet_dictUpdate_not_mem (d : EnvMap) (other : EnvMap) (k : Str)
    (h : k ∉ dictKeys other) : dictGet (dictUpdate d other) k = dictGet d k := by
  induction other generalizing d with
  | nil => simp [dictUpdate]
  | cons p rest ih =>
    simp only [dictKeys, List.map_cons, List.mem_cons] at h
    push_neg at h
    rw [dictUpdate, List.foldl_cons]
    have : dictUpdate (dictSet d p.1 p.2) rest = _ := rfl
    rw [show List.foldl (fun acc q => dictSet acc q.1 q.2) (dictSet d p.1 p.2) rest =
        dictUpdate (dictSet d p.1 p.2) rest from rfl]
    rw [ih _ (by simpa [dictKeys] using h.2)]
    exact dictGet_dictSet_ne _ _ _ _ h.1

/-! ### Configuration store: `load_env_file` / `write_env_file` -/

/-- One iteration of `load_env_file`'s loop: strip the raw line, skip blanks,
`#`-comments and lines without `=`, else split on the first `=` and store the
stripped key and value. -/
def loadLine (data : EnvMap) (rawLine : Str) : EnvMap :=
  let line := pyStrip rawLine
  if line.isEmpty then data
  else if line.head? = some '#' then data
  else if !line.contains '=' then data
  else
    let key := line.takeWhile (fun c => c ≠ '=')
    let value := (line.dropWhile (fun c => c ≠ '=')).tail
    dictSet data (pyStrip key) (pyStrip value)

/-- `load_env_file` on a file's text (the missing-file case yields the empty
map and is handled by the caller passing empty content). -/
def load_env_file (content : Str) : EnvMap :=
  (pySplitlines content).foldl loadLine []

/-- Key order used by `sorted(values.items())`: code-point lexicographic
comparison of the keys (keys of a dict are unique, so the value component
never decides). -/
def strLe : Str → Str → Bool
  | [], _ => true
  | _ :: _, [] => false
  | a :: as, b :: bs =>
    if a.toNat = b.toNat then strLe as bs else decide (a.toNat < b.toNat)

/-- The sorting relation on key/value pairs. -/
def pairLe (p q : Str × Str) : Prop := strLe p.1 q.1 = true

instance : DecidableRel pairLe := fun _ _ => decEq _ _

/-- `sorted(values.items())` for a dict (unique keys). -/
def sortedPairs (values : EnvMap) : EnvMap := values.insertionSort pairLe

/-- `"\n".join(lines)`. -/
def joinLines : List Str → Str
  | [] => []
  | [l] => l
  | l :: ls => l ++ '\n' :: joinLines ls

/-- One written line: `f"{key}={value}"`. -/
def lineOf (p : Str × Str) : Str := p.1 ++ '=' :: p.2

/-- `write_env_file`: one `KEY=VALUE` line per pair, keys sorted, joined with
newlines, with a trailing newline.  Returns the file's text. -/
def write_env_file (values : EnvMap) : Str :=
  joinLines ((sortedPairs values).map lineOf) ++ ['\n']

/-! ### Interpreter selection: `select_python` -/

/-- A Python `sys.version_info[:3]` triple `(major, minor, micro)`. -/
abbrev Version := Nat × Nat × Nat

/-- Python tuple `<` on version triples: lexicographic. -/
def verLt (a b : Version) : Bool :=
  a.1 < b.1 || (a.1 = b.1 && (a.2.1 < b.2.1 || (a.2.1 = b.2.1 && a.2.2 < b.2.2)))

/-- The loop of `select_python`: skip candidates below 3.10.0 or at or above
3.15.0; take a candidate when there is no best yet or it is strictly newer
(so the first-listed candidate keeps a tied version). -/
def selectGo : List (Str × Version) → Option (Str × Version) → Option (Str × Version)
  | [], best => best
  | (p, v) :: rest, best =>
    if verLt v (3, 10, 0) then selectGo rest best
    else if !verLt v (3, 15, 0) then selectGo rest best
    else
      match best with
      | none => selectGo rest (some (p, v))
      | some (bp, bv) =>
        if verLt bv v then selectGo rest (some (p, v)) else selectGo rest (some (bp, bv))

/-- `select_python(candidates)`: the path of the best in-range candidate. -/
def select_python (candidates : List (Str × Version)) : Option Str :=
  (selectGo candidates none).map (·.1)

/-! ### Runtime detection: `detect_container_runtime` -/

/-- The `ordered` list `detect_container_runtime` builds: the preferred
engine first (if truthy), then `podman` and `docker` minus engines already
listed. -/
def searchOrder (preferred : Option Str) : List Str :=
  let pref : List Str :=
    match preferred with
    | some p => if p.isEmpty then [] else [p]
    | none => []
  pref ++ (["podman".toList, "docker".toList].filter (fun r => r ∉ pref))

/-- `':ro,z' if runtime == "podman" else ':ro'`. -/
def volumeOptFor (runtime : Str) : Str :=
  if runtime = "podman".toList then ":ro,z".toList else ":ro".toList

/-- `detect_container_runtime(preferred)`, with `which : Str → Bool` standing
for `shutil.which` on the host.  The first engine of the search order that
`which` finds wins, paired with its volume mount option. -/
def detect_container_runtime (preferred : Option Str) (which : Str → Bool) :
    Option Str × Option Str :=
  match (searchOrder preferred).find? which with
  | none => (none, none)
  | some runtime => (some runtime, some (volumeOptFor runtime))

/-! ### Credential provisioning: `setup_ssh_keys`

The filesystem is a map from path to file bytes; `runner` invoking
`ssh-keygen -f key_path` is the external tool writing fresh key material
`newPriv` / `newPub` to the private and public key paths. -/

/-- The externally visible operations of `setup_ssh_keys`, in order. -/
inductive KeyOp where
  | unlink (path : Str)
  | keygen (keyPath : Str)
  | writeAuth (authPath : Str)
  deriving DecidableEq, Repr

/-- Result of `setup_ssh_keys`: the filesystem afterwards, the operation
trace, and the returned `(key_path, authorized_keys)` pair. -/
structure KeysResult where
  fs : EnvMap
  ops : List KeyOp
  keyPath : Str
  authPath : Str
  deriving Repr

/-- `ssh_dir / key_basename`. -/
def sshKeyPath (baseDir keyBasename : Str) : Str :=
  pathJoin (pathJoin baseDir "ssh_keys".toList) keyBasename

/-- `ssh_dir / f"{key_basename}.pub"`. -/
def sshPubPath (baseDir keyBasename : Str) : Str :=
  pathJoin (pathJoin baseDir "ssh_keys".toList) (keyBasename ++ ".pub".toList)

/-- `ssh_dir / "authorized_keys"`. -/
def sshAuthPath (baseDir : Str) : Str :=
  pathJoin (pathJoin baseDir "ssh_keys".toList) "authorized_keys".toList

/-- `setup_ssh_keys(base_dir, key_basename)`: remove any pre-existing private
and public key at the basename, run `ssh-keygen` (writing `newPriv` and
`newPub`), then copy the public key's bytes into `authorized_keys`. -/
def setup_ssh_keys (fs : EnvMap) (baseDir keyBasename : Str) (newPriv newPub : Str) :
    KeysResult :=
  let keyPath := sshKeyPath baseDir keyBasename
  let pubPath := sshPubPath baseDir keyBasename
  let authKeys := sshAuthPath baseDir
  let fs1 := if (dictGet fs keyPath).isSome then dictErase fs keyPath else fs
  let ops1 : List KeyOp :=
    if (dictGet fs keyPath).isSome then [KeyOp.unlink keyPath] else []
  let fs2 := if (dictGet fs1 pubPath).isSome then dictErase fs1 pubPath else fs1
  let ops2 : List KeyOp :=
    if (dictGet fs1 pubPath).isSome then [KeyOp.unlink pubPath] else []
  let fs3 := dictSet (dictSet fs2 keyPath newPriv) pubPath newPub
  let fs4 := dictSet fs3 authKeys ((dictGet fs3 pubPath).getD [])
  { fs := fs4,
    ops := ops1 ++ ops2 ++ [KeyOp.keygen keyPath, KeyOp.writeAuth authKeys],
    keyPath := keyPath, authPath := authKeys }

/-! ### The `run` workflow

`run` is modelled over a `World` describing the host: the loaded `.env`
settings, `shutil.which`, and an outcome flag per external step (a `false`
flag is the step's subprocess raising `CalledProcessError`).  The result is
`Except Unit Nat` — `.ok code` for a `return`, `.error ()` for an exception
propagating out of `run` — together with the trace of observable events.
`setup_container` is one composite event (its internal build / stale-stop /
run commands are not the cleanup stop the spec speaks about). -/

/-- Exit codes (`RETURN_CODES`). -/
def RC_SUCCESS : Nat := 0
/-- `RETURN_CODES["UNHANDLED_EXCEPTION"]`. -/
def RC_UNHANDLED : Nat := 1
/-- `RETURN_CODES["MISSING_DEPENDENCY"]`. -/
def RC_MISSING_DEPENDENCY : Nat := 2
/-- `RETURN_CODES["NO_PYTHON"]`. -/
def RC_NO_PYTHON : Nat := 3
/-- `RETURN_CODES["NO_RUNTIME"]`. -/
def RC_NO_RUNTIME : Nat := 4

/-- `DEFAULT_CONTAINER_RUNTIME`. -/
def DEFAULT_CONTAINER_RUNTIME : Str := "podman".toList
/-- `DEFAULT_CONTAINER_NAME`. -/
def DEFAULT_CONTAINER_NAME : Str := "ansible_target".toList
/-- `str(DEFAULT_HOST_PORT)`. -/
def DEFAULT_HOST_PORT_STR : Str := "2222".toList

/-- The `run` subcommand's CLI arguments (absent options are `none`). -/
structure RunArgs where
  container_runtime : Option Str
  container_name : Option Str
  container_host_port : Option Str
  skip_container : Bool
  limit : Option Str

/-- The host as `run` observes it. -/
structure World where
  /-- The map `load_env_file(env_file)` returns. -/
  settings : EnvMap
  /-- `shutil.which` for container engines. -/
  which : Str → Bool
  /-- `detect_ansible()`. -/
  ansibleFound : Bool
  /-- `setup_ssh_keys` completed without raising. -/
  sshOk : Bool
  /-- `setup_container` completed without raising. -/
  containerSetupOk : Bool
  /-- `setup_roles` completed without raising. -/
  rolesOk : Bool
  /-- `setup_collections` completed without raising. -/
  collectionsOk : Bool
  /-- `run_playbook` completed without raising. -/
  dispatchOk : Bool

/-- Observable events of the `run` workflow, in program order. -/
inductive Event where
  /-- `logging.warning("Overriding %s from .env (%s) with CLI value (%s)")`. -/
  | warn (setting old new : Str)
  /-- `setup_container(runtime, volume_opt, ..., container_name, host_port, ...)`. -/
  | containerSetup (runtime name volumeOpt : Str) (hostPort : Int)
  /-- `setup_roles(...)`. -/
  | rolesSetup
  /-- `setup_collections()`. -/
  | collectionsSetup
  /-- `run_playbook(...)` with the `-l` value its command line carries. -/
  | dispatch (limitFlag : Option Str)
  /-- The cleanup `runtime container stop container_name`. -/
  | containerStop (runtime name : Str)
  deriving DecidableEq, Repr

/-- `args.container_runtime or settings.get("CONTAINER_RUNTIME") or DEFAULT_CONTAINER_RUNTIME`. -/
def resolvedRuntimePref (args : RunArgs) (settings : EnvMap) : Str :=
  pyOrStr args.container_runtime
    (pyOrStr (dictGet settings "CONTAINER_RUNTIME".toList) DEFAULT_CONTAINER_RUNTIME)

/-- `args.container_name or settings.get("CONTAINER_NAME") or DEFAULT_CONTAINER_NAME`. -/
def resolvedName (args : RunArgs) (settings : EnvMap) : Str :=
  pyOrStr args.container_name
    (pyOrStr (dictGet settings "CONTAINER_NAME".toList) DEFAULT_CONTAINER_NAME)

/-- `args.container_host_port or settings.get("CONTAINER_HOST_PORT") or str(DEFAULT_HOST_PORT)`. -/
def resolvedPortStr (args : RunArgs) (settings : EnvMap) : Str :=
  pyOrStr args.container_host_port
    (pyOrStr (dictGet settings "CONTAINER_HOST_PORT".toList) DEFAULT_HOST_PORT_STR)

/-- One resolution's warning: `if args.x and settings.get(X) and args.x != settings[X]`. -/
def warnFor (setting : Str) (cli persisted : Option Str) : List Event :=
  if pyTruthy cli && pyTruthy persisted && (cli.getD [] ≠ persisted.getD [] : Bool) then
    [Event.warn setting (persisted.getD []) (cli.getD [])]
  else []

/-- The override warnings `run` logs, in resolution order. -/
def resolveWarns (args : RunArgs) (settings : EnvMap) : List Event :=
  warnFor "CONTAINER_RUNTIME".toList args.container_runtime
      (dictGet settings "CONTAINER_RUNTIME".toList) ++
    warnFor "CONTAINER_NAME".toList args.container_name
      (dictGet settings "CONTAINER_NAME".toList) ++
    warnFor "CONTAINER_HOST_PORT".toList args.container_host_port
      (dictGet settings "CONTAINER_HOST_PORT".toList)

/-- The `-l` value `run_playbook`'s command line carries: `run` defaults the
limit to `localhost` in container-skip mode when the caller's limit is falsy,
and `run_playbook` adds `-l` only for a truthy limit. -/
def dispatchFlag (args : RunArgs) : Option Str :=
  let lim :=
    if args.skip_container && !pyTruthy args.limit then some "localhost".toList
    else args.limit
  if pyTruthy lim then some (lim.getD []) else none

/-- The body after `setup_container` in `run`'s `try`: roles, collections,
limit defaulting, dispatch.  Returns whether an exception was raised plus the
events so far. -/
def afterContainer (args : RunArgs) (w : World) (pre : List Event) : Bool × List Event :=
  let ev := pre ++ [Event.rolesSetup]
  if !w.rolesOk then (true, ev)
  else
    let ev := ev ++ [Event.collectionsSetup]
    if !w.collectionsOk then (true, ev)
    else (!w.dispatchOk, ev ++ [Event.dispatch (dispatchFlag args)])

/-- `run`'s `try` block: `(raised, container_started, events)`. -/
def tryBody (args : RunArgs) (w : World) (runtime cname vopt : Str) (hostPort : Int) :
    Bool × Bool × List Event :=
  if args.skip_container then
    let ac := afterContainer args w []
    (ac.1, false, ac.2)
  else
    let ev := [Event.containerSetup runtime cname vopt hostPort]
    if !w.containerSetupOk then (true, false, ev)
    else
      let ac := afterContainer args w ev
      (ac.1, true, ac.2)

/-- The `run(args)` workflow: settings resolution (with warnings), host-port
parse, runtime detection, ansible check, key setup, then the `try`/`finally`
whose `finally` stops the container exactly when it was started. -/
def run (args : RunArgs) (w : World) : Except Unit Nat × List Event :=
  let warns := resolveWarns args w.settings
  match pyInt (resolvedPortStr args w.settings) with
  | none => (Except.ok RC_NO_RUNTIME, warns)
  | some hostPort =>
    match detect_container_runtime (some (resolvedRuntimePref args w.settings)) w.which with
    | (none, _) => (Except.ok RC_NO_RUNTIME, warns)
    | (some runtime, volumeOpt) =>
      if !w.ansibleFound then (Except.ok RC_MISSING_DEPENDENCY, warns)
      else if !w.sshOk then (Except.error (), warns)
      else
        let cname := resolvedName args w.settings
        let tb := tryBody args w runtime cname (pyOrStr volumeOpt ":ro".toList) hostPort
        let ev := warns ++ tb.2.2 ++
          (if tb.2.1 then [Event.containerStop runtime cname] else [])
        (if tb.1 then Except.error () else Except.ok RC_SUCCESS, ev)

/-! ### The `activate` workflow -/

/-- `ANSIBLE_ENV_DEFAULTS`, in the source's insertion order. -/
def ANSIBLE_ENV_DEFAULTS : EnvMap :=
  [("ANSIBLE_DISPLAY_ARGS_TO_STDOUT".toList, "false".toList),
   ("ANSIBLE_CALLBACKS_ENABLED".toList, "profile_tasks".toList),
   ("ANSIBLE_LOAD_CALLBACK_PLUGINS".toList, "true".toList),
   ("ANSIBLE_LOG_PATH".toList, "ansible.log".toList),
   ("ANSIBLE_ROLES_PATH".toList, "roles".toList),
   ("ANSIBLE_FILTER_PLUGINS".toList, "plugins".toList),
   ("ANSIBLE_LIBRARY".toList, "library".toList),
   ("ANSIBLE_CALLBACK_RESULT_FORMAT".toList, "yaml".toList)]

/-- `build_activation_env(playbook_path)`: the dict literal's pairs in
insertion order. -/
def build_activation_env (playbookPath : Str) : EnvMap :=
  ("PLAYBOOK_PATH".toList, playbookPath) ::
    ANSIBLE_ENV_DEFAULTS ++
    [("ANSIBLE_VAULT_PASSWORD_FILE".toList, pathJoin playbookPath "vault-pw.txt".toList),
     ("CONTAINER_RUNTIME".toList, DEFAULT_CONTAINER_RUNTIME),
     ("CONTAINER_HOST_PORT".toList, DEFAULT_HOST_PORT_STR),
     ("CONTAINER_NAME".toList, DEFAULT_CONTAINER_NAME)]

/-- `ensure_venv` when no venv exists yet: `None` under `UNIT_TESTING`, with
no interpreter candidates, or when `select_python` finds none in range;
otherwise the venv's interpreter path if creation succeeded. -/
def ensure_venv (playbookPath : Str) (unitTesting : Bool)
    (candidates : List (Str × Version)) (createOk : Bool) : Option Str :=
  if unitTesting then none
  else if candidates.isEmpty then none
  else
    match select_python candidates with
    | none => none
    | some _picked =>
      if createOk then some (pathJoin playbookPath ".venv/bin/python".toList) else none

/-- `activate`'s venv resolution: `_venv_python` when a venv already exists,
else `ensure_venv`. -/
def activateVenv (playbookPath : Str) (venvExists unitTesting : Bool)
    (candidates : List (Str × Version)) (createOk : Bool) : Option Str :=
  if venvExists then some (pathJoin playbookPath ".venv/bin/python".toList)
  else ensure_venv playbookPath unitTesting candidates createOk

/-- The settings map `activate` writes back: the activation environment
merged over the persisted settings, plus `VENV_PYTHON` when a venv exists. -/
def activateEnvValues (persisted : EnvMap) (playbookPath : Str)
    (venvPython : Option Str) : EnvMap :=
  let envValues := dictUpdate persisted (build_activation_env playbookPath)
  match venvPython with
  | some p => dictSet envValues "VENV_PYTHON".toList p
  | none => envValues

/-- `activate(args)`: ensure the venv, install requirements when it was just
created (`installOk = false` is `pip` raising), merge the activation
environment over the persisted settings, add `VENV_PYTHON` when a venv
exists, and return the written settings with exit code `SUCCESS`.  The final
component is the warnings `activate` logs: its body (source lines 413-462)
calls `logging.info`/`debug`/`error` only, never `logging.warning`, so the
list is empty on every path. -/
def activate (persisted : EnvMap) (playbookPath : Str)
    (venvExists unitTesting : Bool) (candidates : List (Str × Version))
    (createOk installOk : Bool) : Except Unit (Nat × EnvMap × List Event) :=
  let venvPython := activateVenv playbookPath venvExists unitTesting candidates createOk
  let created := !venvExists && venvPython.isSome
  if created && !installOk then Except.error ()
  else Except.ok (RC_SUCCESS, activateEnvValues persisted playbookPath venvPython, [])

/-! ### Claim-side characterizations -/

/-- The spec's version window: `>= 3.10.0` and `< 3.15.0` (Python's total
tuple order, so `>=` is the negation of `<`). -/
def inRange (v : Version) : Bool := !verLt v (3, 10, 0) && verLt v (3, 15, 0)

/-- The larger of two versions (keeping the first on ties). -/
def verMax (a b : Version) : Version := if verLt a b then b else a

/-- The maximum version among the in-range candidates, if any. -/
def maxInRange : List (Str × Version) → Option Version
  | [] => none
  | c :: rest =>
    if inRange c.2 then
      match maxInRange rest with
      | none => some c.2
      | some v => some (verMax c.2 v)
    else maxInRange rest

theorem verLt_iff (a b : Version) :
    verLt a b = true ↔
      a.1 < b.1 ∨ (a.1 = b.1 ∧ (a.2.1 < b.2.1 ∨ (a.2.1 = b.2.1 ∧ a.2.2 < b.2.2))) := by
  obtain ⟨a1, a2, a3⟩ := a
  obtain ⟨b1, b2, b3⟩ := b
  simp [verLt]

theorem verLt_self (a : Version) : verLt a a = false := by
  obtain ⟨a1, a2, a3⟩ := a
  simp [verLt]

theorem verLt_trans {a b c : Version} (h1 : verLt a b = true) (h2 : verLt b c = true) :
    verLt a c = true := by
  rw [verLt_iff] at h1 h2 ⊢
  omega

theorem verLt_false_trans {a b c : Version} (h1 : verLt a b = false) (h2 : verLt b c = false) :
    verLt a c = false := by
  rw [← Bool.not_eq_true] at h1 h2 ⊢
  rw [verLt_iff] at h1 h2 ⊢
  omega

theorem verLt_ne {a b : Version} (h : verLt a b = true) : a ≠ b := by
  intro he
  rw [he, verLt_self] at h
  exact Bool.false_ne_true h

theorem maxInRange_isInRange :
    ∀ {cands : List (Str × Version)} {v : Version},
      maxInRange cands = some v → inRange v = true := by
  intro cands
  induction cands with
  | nil => intro v h; simp [maxInRange] at h
  | cons c rest ih =>
    intro v h
    by_cases hc : inRange c.2 = true
    · rw [maxInRange, if_pos hc] at h
      cases hmr : maxInRange rest with
      | none => rw [hmr] at h; cases h; exact hc
      | some m =>
        rw [hmr] at h
        cases h
        unfold verMax
        split
        · exact ih hmr
        · exact hc
    · rw [maxInRange, if_neg hc] at h
      exact ih h

/-- The loop step: a candidate is taken into account exactly when its
version is in range, and then only if it strictly beats the current best. -/
theorem selectGo_cons (p : Str) (v : Version) (rest : List (Str × Version))
    (best : Option (Str × Version)) :
    selectGo ((p, v) :: rest) best =
      if inRange v then
        match best with
        | none => selectGo rest (some (p, v))
        | some (bp, bv) =>
          if verLt bv v then selectGo rest (some (p, v)) else selectGo rest (some (bp, bv))
      else selectGo rest best := by
  by_cases hlo : verLt v (3, 10, 0) = true
  · have : inRange v = false := by simp [inRange, hlo]
    simp [selectGo, hlo, this]
  · by_cases hhi : verLt v (3, 15, 0) = true
    · have : inRange v = true := by
        simp [inRange, hhi, Bool.not_eq_true _ ▸ hlo]
      simp [selectGo, hlo, hhi, this]
    · have : inRange v = false := by simp [inRange, Bool.not_eq_true _ ▸ hhi]
      simp only [selectGo, this, if_false, Bool.false_eq_true]
      rw [if_neg hlo, if_pos (by simp [Bool.not_eq_true _ ▸ hhi])]

theorem selectGo_some_eq (cands : List (Str × Version)) :
    ∀ b : Str × Version,
      selectGo cands (some b) =
        (match maxInRange cands with
         | none => some b
         | some v => if verLt b.2 v then cands.find? (fun c => c.2 = v) else some b) := by
  induction cands with
  | nil => intro b; simp [selectGo, maxInRange]
  | cons c rest ih =>
    intro b
    obtain ⟨p, v⟩ := c
    by_cases hc : inRange v = true
    · rw [selectGo_cons, if_pos hc]
      by_cases hbc : verLt b.2 v = true
      · rw [show (match some b with
              | none => selectGo rest (some (p, v))
              | some (bp, bv) =>
                if verLt bv v then selectGo rest (some (p, v))
                else selectGo rest (some (bp, bv))) = selectGo rest (some (p, v)) by
            obtain ⟨b1, b2⟩ := b
            simp only []
            rw [if_pos hbc]]
        rw [ih (p, v)]
        cases hmr : maxInRange rest with
        | none =>
          simp only [maxInRange, if_pos hc, hmr]
          rw [if_pos hbc, List.find?_cons_of_pos _ (by simp)]
        | some m =>
          simp only [maxInRange, if_pos hc, hmr]
          by_cases hcm : verLt v m = true
          · rw [verMax, if_pos hcm, if_pos hcm, if_pos (verLt_trans hbc hcm),
              List.find?_cons_of_neg _ (by simpa using (verLt_ne hcm))]
          · rw [verMax, if_neg hcm, if_neg hcm, if_pos hbc,
              List.find?_cons_of_pos _ (by simp)]
      · rw [show (match some b with
              | none => selectGo rest (some (p, v))
              | some (bp, bv) =>
                if verLt bv v then selectGo rest (some (p, v))
                else selectGo rest (some (bp, bv))) = selectGo rest (some b) by
            obtain ⟨b1, b2⟩ := b
            simp only []
            rw [if_neg hbc]]
        rw [ih b]
        cases hmr : maxInRange rest with
        | none =>
          simp only [maxInRange, if_pos hc, hmr]
          rw [if_neg hbc]
        | some m =>
          simp only [maxInRange, if_pos hc, hmr]
          by_cases hcm : verLt v m = true
          · rw [verMax, if_pos hcm]
            by_cases hbm : verLt b.2 m = true
            · rw [if_pos hbm, if_pos hbm,
                List.find?_cons_of_neg _ (by simpa using (verLt_ne hcm))]
            · rw [if_neg hbm, if_neg hbm]
          · rw [verMax, if_neg hcm]
            have hbm : verLt b.2 m = false :=
              verLt_false_trans (Bool.not_eq_true _ ▸ hbc) (Bool.not_eq_true _ ▸ hcm)
            have hbmf : ¬(verLt b.2 m = true) := by simp [hbm]
            rw [if_neg hbmf, if_neg hbc]
    · rw [selectGo_cons, if_neg hc, ih b]
      have hmx : maxInRange ((p, v) :: rest) = maxInRange rest := by
        rw [maxInRange, if_neg hc]
      rw [hmx]
      cases hmr : maxInRange rest with
      | none => rfl
      | some m =>
        have hm : inRange m = true := maxInRange_isInRange hmr
        have hne : ¬(((p, v) : Str × Version).2 = m) := by
          intro he
          simp only [] at he
          rw [← he] at hm
          exact hc hm
        dsimp only
        rw [List.find?_cons_of_neg _ (by simpa using hne)]

theorem selectGo_none_eq (cands : List (Str × Version)) :
    selectGo cands none =
      (match maxInRange cands with
       | none => none
       | some v => cands.find? (fun c => c.2 = v)) := by
  induction cands with
  | nil => simp [selectGo, maxInRange]
  | cons c rest ih =>
    obtain ⟨p, v⟩ := c
    by_cases hc : inRange v = true
    · rw [selectGo_cons, if_pos hc]
      rw [selectGo_some_eq rest (p, v)]
      cases hmr : maxInRange rest with
      | none =>
        simp only [maxInRange, if_pos hc, hmr]
        rw [List.find?_cons_of_pos _ (by simp)]
      | some m =>
        simp only [maxInRange, if_pos hc, hmr]
        by_cases hcm : verLt v m = true
        · rw [verMax, if_pos hcm, if_pos hcm,
            List.find?_cons_of_neg _ (by simpa using (verLt_ne hcm))]
        · rw [verMax, if_neg hcm, if_neg hcm,
            List.find?_cons_of_pos _ (by simp)]
    · rw [selectGo_cons, if_neg hc, ih]
      have hmx : maxInRange ((p, v) :: rest) = maxInRange rest := by
        rw [maxInRange, if_neg hc]
      rw [hmx]
      cases hmr : maxInRange rest with
      | none => rfl
      | some m =>
        have hm : inRange m = true := maxInRange_isInRange hmr
        have hne : ¬(((p, v) : Str × Version).2 = m) := by
          intro he
          simp only [] at he
          rw [← he] at hm
          exact hc hm
        dsimp only
        rw [List.find?_cons_of_neg _ (by simpa using hne)]

/-- C3.  `select_python` returns `none` exactly when no candidate's version
lies in `[3.10.0, 3.15.0)`; otherwise it returns the first-listed candidate
carrying the maximum in-range version (so the first wins a tie), and any
returned path belongs to a candidate whose version is in range.  The third
conjunct replays the repository's own unit-test example. -/
theorem select_python_correct :
    (∀ candidates : List (Str × Version),
        select_python candidates =
          (match maxInRange candidates with
           | none => none
           | some v => (candidates.find? (fun c => c.2 = v)).map (·.1)))
    ∧ (∀ (candidates : List (Str × Version)) (p : Str),
        select_python candidates = some p →
          ∃ v, (p, v) ∈ candidates ∧ inRange v = true)
    ∧ select_python
        [("/usr/bin/python3.11".toList, ((3 : Nat), (11 : Nat), (5 : Nat))),
         ("/usr/bin/python3.14".toList, ((3 : Nat), (14 : Nat), (2 : Nat))),
         ("/usr/bin/python3.15".toList, ((3 : Nat), (15 : Nat), (0 : Nat))),
         ("/usr/bin/python3.12".toList, ((3 : Nat), (12 : Nat), (0 : Nat)))] =
        some "/usr/bin/python3.14".toList := by
  have hmain : ∀ candidates : List (Str × Version),
      select_python candidates =
        (match maxInRange candidates with
         | none => none
         | some v => (candidates.find? (fun c => c.2 = v)).map (·.1)) := by
    intro candidates
    rw [select_python, selectGo_none_eq]
    cases hmr : maxInRange candidates with
    | none => rfl
    | some v => rfl
  refine ⟨hmain, ?_, by decide⟩
  intro candidates p hp
  rw [hmain candidates] at hp
  cases hmr : maxInRange candidates with
  | none => rw [hmr] at hp; cases hp
  | some v =>
    rw [hmr] at hp
    simp only [Option.map_eq_some'] at hp
    obtain ⟨c, hfind, hc1⟩ := hp
    have hcv : c.2 = v := by simpa using List.find?_some hfind
    have hmem : c ∈ candidates := List.mem_of_find?_eq_some hfind
    refine ⟨v, ?_, maxInRange_isInRange hmr⟩
    rw [← hc1, ← hcv]
    exact hmem

/-- The spec's engine search order: the preferred engine first (when given
and not duplicated), then `podman`, then `docker`. -/
def claimOrder (preferred : Option Str) : List Str :=
  match preferred with
  | none => ["podman".toList, "docker".toList]
  | some p => p :: (["podman".toList, "docker".toList].filter (fun r => r ≠ p))

/-- The spec's engine-specific mount option: `:ro,z` for podman, `:ro`
otherwise. -/
def mountOptFor (engine : Str) : Str :=
  if engine = "podman".toList then ":ro,z".toList else ":ro".toList

/-- C9.  `detect_container_runtime` probes engines in the order: preferred
first (when given and not duplicated), then `podman`, then `docker`; it
returns the first executable engine paired with `:ro,z` for podman and `:ro`
otherwise, and `(none, none)` when none is executable.  The hypothesis
`which [] = false` records that `shutil.which("")` finds nothing; the second
conjunct is the spec's example with both engines present. -/
theorem detect_container_runtime_correct :
    (∀ (preferred : Option Str) (which : Str → Bool), which [] = false →
        detect_container_runtime preferred which =
          (match (claimOrder preferred).find? which with
           | none => (none, none)
           | some r => (some r, some (mountOptFor r))))
    ∧ detect_container_runtime none
        (fun s => s = "podman".toList || s = "docker".toList) =
        (some "podman".toList, some ":ro,z".toList) := by
  constructor
  · intro preferred which hw
    have hfind : (searchOrder preferred).find? which = (claimOrder preferred).find? which := by
      cases preferred with
      | none =>
        have h1 : searchOrder none = ["podman".toList, "docker".toList] := by decide
        rw [h1, claimOrder]
      | some p =>
        by_cases hp : p = []
        · subst hp
          have h1 : searchOrder (some []) = ["podman".toList, "docker".toList] := by decide
          have h2 : claimOrder (some []) = [] :: ["podman".toList, "docker".toList] := by decide
          rw [h1, h2]
          conv_rhs => rw [List.find?_cons_of_neg _ (by simp [hw])]
        · have hne : p.isEmpty = false := by
            cases p with
            | nil => exact absurd rfl hp
            | cons c cs => rfl
          have h1 : searchOrder (some p) =
              p :: (["podman".toList, "docker".toList].filter (fun r => r ≠ p)) := by
            rw [searchOrder]
            simp only [hne, Bool.false_eq_true, if_false, List.singleton_append,
              List.cons.injEq, true_and]
            apply List.filter_congr
            intro x _
            simp [List.mem_singleton]
          rw [h1, claimOrder]
    rw [detect_container_runtime, hfind]
    cases hf : (claimOrder preferred).find? which with
    | none => rfl
    | some r => simp [mountOptFor, volumeOptFor]
  · decide

theorem pathJoin_inj_right {d a b : Str} (h : pathJoin d a = pathJoin d b) : a = b := by
  unfold pathJoin at h
  have h2 := List.append_cancel_left h
  simpa using h2

theorem sshKeyPath_ne_pubPath (baseDir bn : Str) :
    sshKeyPath baseDir bn ≠ sshPubPath baseDir bn := by
  intro h
  have h2 := pathJoin_inj_right h
  have h3 := congrArg List.length h2
  simp at h3

theorem sshPubPath_ne_authPath (baseDir bn : Str) :
    sshPubPath baseDir bn ≠ sshAuthPath baseDir := by
  intro h
  have h2 := pathJoin_inj_right h
  have h3 : ((bn ++ ".pub".toList).reverse).head? = some 'b' := by
    rw [List.reverse_append]
    rfl
  rw [h2] at h3
  have h4 : (("authorized_keys".toList).reverse).head? = some 's' := rfl
  rw [h4] at h3
  exact absurd h3 (by decide)

theorem sshKeyPath_ne_authPath (baseDir bn : Str) (h : bn ≠ "authorized_keys".toList) :
    sshKeyPath baseDir bn ≠ sshAuthPath baseDir :=
  fun he => h (pathJoin_inj_right he)

/-- C7.  `setup_ssh_keys` ends with the private key, public key and
authorized file holding exactly the freshly generated material — whatever the
directory held before (first conjunct, quantified over every starting
filesystem, so no stale content survives); its unlink operations cover every
pre-existing key file and all precede the `ssh-keygen` invocation, which is
followed only by the authorized-file write (second conjunct); and two
successive runs leave the second run's material, differing from the first's
whenever the generated keys differ (third conjunct).  (`bn ≠
"authorized_keys"` excludes a basename aliasing the authorized file; the
program always passes `ansible_target`.) -/
theorem setup_ssh_keys_fresh :
    (∀ (fs : EnvMap) (base bn priv pub : Str), bn ≠ "authorized_keys".toList →
        dictGet (setup_ssh_keys fs base bn priv pub).fs (sshKeyPath base bn) = some priv ∧
        dictGet (setup_ssh_keys fs base bn priv pub).fs (sshPubPath base bn) = some pub ∧
        dictGet (setup_ssh_keys fs base bn priv pub).fs (sshAuthPath base) = some pub)
    ∧ (∀ (fs : EnvMap) (base bn priv pub : Str),
        ∃ pre, (setup_ssh_keys fs base bn priv pub).ops =
            pre ++ [KeyOp.keygen (sshKeyPath base bn), KeyOp.writeAuth (sshAuthPath base)] ∧
          (∀ op ∈ pre, op = KeyOp.unlink (sshKeyPath base bn) ∨
            op = KeyOp.unlink (sshPubPath base bn)) ∧
          ((dictGet fs (sshKeyPath base bn)).isSome = true →
            KeyOp.unlink (sshKeyPath base bn) ∈ pre) ∧
          ((dictGet fs (sshPubPath base bn)).isSome = true →
            KeyOp.unlink (sshPubPath base bn) ∈ pre))
    ∧ (∀ (fs : EnvMap) (base bn priv₁ pub₁ priv₂ pub₂ : Str),
        bn ≠ "authorized_keys".toList →
        dictGet (setup_ssh_keys (setup_ssh_keys fs base bn priv₁ pub₁).fs
            base bn priv₂ pub₂).fs (sshKeyPath base bn) = some priv₂ ∧
        dictGet (setup_ssh_keys (setup_ssh_keys fs base bn priv₁ pub₁).fs
            base bn priv₂ pub₂).fs (sshAuthPath base) = some pub₂ ∧
        (priv₂ ≠ priv₁ →
          dictGet (setup_ssh_keys (setup_ssh_keys fs base bn priv₁ pub₁).fs
            base bn priv₂ pub₂).fs (sshKeyPath base bn) ≠ some priv₁)) := by
  have hfs : ∀ (fs : EnvMap) (base bn priv pub : Str), bn ≠ "authorized_keys".toList →
      dictGet (setup_ssh_keys fs base bn priv pub).fs (sshKeyPath base bn) = some priv ∧
      dictGet (setup_ssh_keys fs base bn priv pub).fs (sshPubPath base bn) = some pub ∧
      dictGet (setup_ssh_keys fs base bn priv pub).fs (sshAuthPath base) = some pub := by
    intro fs base bn priv pub hbn
    have hkp : sshKeyPath base bn ≠ sshPubPath base bn := sshKeyPath_ne_pubPath base bn
    have hka : sshKeyPath base bn ≠ sshAuthPath base := sshKeyPath_ne_authPath base bn hbn
    have hpa : sshPubPath base bn ≠ sshAuthPath base := sshPubPath_ne_authPath base bn
    simp only [setup_ssh_keys]
    have hpub3 : ∀ fs2 : EnvMap,
        dictGet (dictSet (dictSet fs2 (sshKeyPath base bn) priv) (sshPubPath base bn) pub)
          (sshPubPath base bn) = some pub := fun fs2 => dictGet_dictSet_self _ _ _
    refine ⟨?_, ?_, ?_⟩
    · rw [hpub3, Option.getD_some, dictGet_dictSet_ne _ _ _ _ hka,
        dictGet_dictSet_ne _ _ _ _ hkp, dictGet_dictSet_self]
    · rw [hpub3, Option.getD_some, dictGet_dictSet_ne _ _ _ _ hpa, hpub3]
    · rw [hpub3, Option.getD_some, dictGet_dictSet_self]
  refine ⟨hfs, ?_, ?_⟩
  · intro fs base bn priv pub
    have hkp := sshKeyPath_ne_pubPath base bn
    have hpp_fs1 :
        dictGet (if (dictGet fs (sshKeyPath base bn)).isSome = true then
            dictErase fs (sshKeyPath base bn) else fs) (sshPubPath base bn) =
          dictGet fs (sshPubPath base bn) := by
      split
      · exact dictGet_dictErase_ne _ _ _ (Ne.symm hkp)
      · rfl
    refine ⟨(if (dictGet fs (sshKeyPath base bn)).isSome = true then
        [KeyOp.unlink (sshKeyPath base bn)] else []) ++
      (if (dictGet fs (sshPubPath base bn)).isSome = true then
        [KeyOp.unlink (sshPubPath base bn)] else []), ?_, ?_, ?_, ?_⟩
    · simp only [setup_ssh_keys]
      rw [hpp_fs1]
    · intro op hop
      rcases List.mem_append.mp hop with h | h
      · split at h
        · simp at h
          exact Or.inl h
        · simp at h
      · split at h
        · simp at h
          exact Or.inr h
        · simp at h
    · intro h1
      simp [h1]
    · intro h2
      simp [h2]
  · intro fs base bn p₁ b₁ p₂ b₂ hbn
    obtain ⟨h1, h2, h3⟩ := hfs (setup_ssh_keys fs base bn p₁ b₁).fs base bn p₂ b₂ hbn
    refine ⟨h1, h3, fun hne => ?_⟩
    rw [h1]
    intro hc
    exact hne (by injection hc)

/-! ### Trace observations on the `run` workflow -/

/-- Is an event the cleanup container-stop command? -/
def isStopEv : Event → Bool
  | .containerStop _ _ => true
  | _ => false

/-- Is an event an override warning? -/
def isWarnEv : Event → Bool
  | .warn _ _ _ => true
  | _ => false

/-- How many cleanup stop commands a trace carries. -/
def countStops (tr : List Event) : Nat := (tr.filter isStopEv).length

/-- The `-l` value of the first playbook dispatch in a trace, if any
(`some none` = dispatched without `-l`). -/
def dispatchedLimit (tr : List Event) : Option (Option Str) :=
  tr.findSome? fun e =>
    match e with
    | .dispatch l => some l
    | _ => none

/-- The container was started: every step before the `try` block succeeded,
container-skip mode is off, and `setup_container` returned. -/
def containerStarted (args : RunArgs) (w : World) : Bool :=
  (pyInt (resolvedPortStr args w.settings)).isSome &&
    (detect_container_runtime (some (resolvedRuntimePref args w.settings)) w.which).1.isSome &&
    w.ansibleFound && w.sshOk && !args.skip_container && w.containerSetupOk

/-- The workflow reaches the playbook dispatch: every step before it
succeeded (the container step is skipped or succeeded). -/
def reachesDispatch (args : RunArgs) (w : World) : Bool :=
  (pyInt (resolvedPortStr args w.settings)).isSome &&
    (detect_container_runtime (some (resolvedRuntimePref args w.settings)) w.which).1.isSome &&
    w.ansibleFound && w.sshOk && (args.skip_container || w.containerSetupOk) &&
    w.rolesOk && w.collectionsOk

theorem countStops_append (l₁ l₂ : List Event) :
    countStops (l₁ ++ l₂) = countStops l₁ + countStops l₂ := by
  simp [countStops, List.filter_append]

theorem countStops_warnFor (s : Str) (c p : Option Str) : countStops (warnFor s c p) = 0 := by
  unfold warnFor
  split <;> simp [countStops, isStopEv, List.filter]

theorem countStops_resolveWarns (args : RunArgs) (settings : EnvMap) :
    countStops (resolveWarns args settings) = 0 := by
  unfold resolveWarns
  rw [countStops_append, countStops_append, countStops_warnFor, countStops_warnFor,
    countStops_warnFor]

theorem afterContainer_events (args : RunArgs) (w : World) (pre : List Event) :
    ∃ rest, (afterContainer args w pre).2 = pre ++ rest ∧
      (∀ e ∈ rest, isStopEv e = false ∧ isWarnEv e = false) := by
  unfold afterContainer
  by_cases hr : w.rolesOk
  · by_cases hc : w.collectionsOk
    · refine ⟨[Event.rolesSetup, Event.collectionsSetup, Event.dispatch (dispatchFlag args)],
        by simp [hr, hc], ?_⟩
      intro e he
      simp only [List.mem_cons, List.not_mem_nil, or_false] at he
      rcases he with rfl | rfl | rfl <;> exact ⟨rfl, rfl⟩
    · refine ⟨[Event.rolesSetup, Event.collectionsSetup], by simp [hr, hc], ?_⟩
      intro e he
      simp only [List.mem_cons, List.not_mem_nil, or_false] at he
      rcases he with rfl | rfl <;> exact ⟨rfl, rfl⟩
  · refine ⟨[Event.rolesSetup], by simp [hr], ?_⟩
    intro e he
    simp only [List.mem_cons, List.not_mem_nil, or_false] at he
    subst he
    exact ⟨rfl, rfl⟩

theorem tryBody_started (args : RunArgs) (w : World) (r n v : Str) (hp : Int) :
    (tryBody args w r n v hp).2.1 = (!args.skip_container && w.containerSetupOk) := by
  unfold tryBody
  by_cases hs : args.skip_container
  · simp [hs]
  · by_cases hc : w.containerSetupOk
    · simp [hs, hc]
    · simp [hs, hc]

theorem tryBody_events (args : RunArgs) (w : World) (r n v : Str) (hp : Int) :
    ∀ e ∈ (tryBody args w r n v hp).2.2, isStopEv e = false ∧ isWarnEv e = false := by
  intro e he
  unfold tryBody at he
  by_cases hs : args.skip_container
  · rw [if_pos hs] at he
    dsimp only at he
    obtain ⟨rest, hev, hprop⟩ := afterContainer_events args w []
    rw [hev] at he
    exact hprop e (by simpa using he)
  · rw [if_neg hs] at he
    dsimp only at he
    by_cases hc : w.containerSetupOk
    · rw [if_neg (by simp [hc])] at he
      dsimp only at he
      obtain ⟨rest, hev, hprop⟩ := afterContainer_events args w [Event.containerSetup r n v hp]
      rw [hev] at he
      rcases List.mem_append.mp he with h | h
      · simp only [List.mem_singleton] at h
        subst h
        exact ⟨rfl, rfl⟩
      · exact hprop e h
    · rw [if_pos (by simp [hc])] at he
      dsimp only at he
      simp only [List.mem_singleton] at he
      subst he
      exact ⟨rfl, rfl⟩

theorem countStops_eq_zero {tr : List Event} (h : ∀ e ∈ tr, isStopEv e = false) :
    countStops tr = 0 := by
  unfold countStops
  rw [List.filter_eq_nil_iff.mpr (fun a ha => by simp [h a ha])]
  rfl

theorem countStops_tryBody (args : RunArgs) (w : World) (r n v : Str) (hp : Int) :
    countStops (tryBody args w r n v hp).2.2 = 0 :=
  countStops_eq_zero (fun e he => (tryBody_events args w r n v hp e he).1)

theorem run_port_invalid (args : RunArgs) (w : World)
    (h : pyInt (resolvedPortStr args w.settings) = none) :
    run args w = (Except.ok RC_NO_RUNTIME, resolveWarns args w.settings) := by
  simp only [run, h]

theorem run_no_runtime (args : RunArgs) (w : World) (hp : Int) (vo : Option Str)
    (hport : pyInt (resolvedPortStr args w.settings) = some hp)
    (hdet : detect_container_runtime (some (resolvedRuntimePref args w.settings)) w.which =
      (none, vo)) :
    run args w = (Except.ok RC_NO_RUNTIME, resolveWarns args w.settings) := by
  simp only [run, hport, hdet]

theorem run_no_ansible (args : RunArgs) (w : World) (hp : Int) (runtime : Str)
    (vo : Option Str)
    (hport : pyInt (resolvedPortStr args w.settings) = some hp)
    (hdet : detect_container_runtime (some (resolvedRuntimePref args w.settings)) w.which =
      (some runtime, vo))
    (hans : w.ansibleFound = false) :
    run args w = (Except.ok RC_MISSING_DEPENDENCY, resolveWarns args w.settings) := by
  simp only [run, hport, hdet, hans]
  rfl

theorem run_ssh_raise (args : RunArgs) (w : World) (hp : Int) (runtime : Str)
    (vo : Option Str)
    (hport : pyInt (resolvedPortStr args w.settings) = some hp)
    (hdet : detect_container_runtime (some (resolvedRuntimePref args w.settings)) w.which =
      (some runtime, vo))
    (hans : w.ansibleFound = true) (hssh : w.sshOk = false) :
    run args w = (Except.error (), resolveWarns args w.settings) := by
  simp only [run, hport, hdet, hans, hssh]
  rfl

theorem run_reached_eq (args : RunArgs) (w : World) (hp : Int) (runtime : Str)
    (vo : Option Str)
    (hport : pyInt (resolvedPortStr args w.settings) = some hp)
    (hdet : detect_container_runtime (some (resolvedRuntimePref args w.settings)) w.which =
      (some runtime, vo))
    (hans : w.ansibleFound = true) (hssh : w.sshOk = true) :
    run args w =
      (if (tryBody args w runtime (resolvedName args w.settings)
            (pyOrStr vo ":ro".toList) hp).1 then Except.error () else Except.ok RC_SUCCESS,
        resolveWarns args w.settings ++
          (tryBody args w runtime (resolvedName args w.settings)
            (pyOrStr vo ":ro".toList) hp).2.2 ++
          (if (tryBody args w runtime (resolvedName args w.settings)
              (pyOrStr vo ":ro".toList) hp).2.1 then
            [Event.containerStop runtime (resolvedName args w.settings)] else [])) := by
  simp only [run, hport, hdet, hans, hssh]
  rfl

/-- A host where podman is present and every external step succeeds. -/
def exWorld : World where
  settings := []
  which := fun s => s = "podman".toList
  ansibleFound := true
  sshOk := true
  containerSetupOk := true
  rolesOk := true
  collectionsOk := true
  dispatchOk := true

/-- A `run` invocation with no CLI overrides. -/
def exArgs : RunArgs where
  container_runtime := none
  container_name := none
  container_host_port := none
  skip_container := false
  limit := none

/-- C1.  Whenever the container is started, `run`'s trace carries the cleanup
stop exactly once, as its very last event, whatever the dispatch outcome
(conjuncts 1-2; the count is 0 on every path where the container was never
started, including container-skip mode).  When the workflow fails before the
`try` block — unparsable host port, no container runtime, no ansible — it
returns its specific non-zero status directly, with no stop attempted
(conjuncts 3-5).  Conjunct 6 replays the dispatch-failure scenario: the
container is started, dispatch raises, and the trace still ends with exactly
one stop. -/
theorem run_cleanup_invariant :
    (∀ (args : RunArgs) (w : World),
        countStops (run args w).2 = if containerStarted args w then 1 else 0)
    ∧ (∀ (args : RunArgs) (w : World), containerStarted args w = true →
        ∃ r, (run args w).2.getLast? =
          some (Event.containerStop r (resolvedName args w.settings)))
    ∧ (∀ (args : RunArgs) (w : World),
        pyInt (resolvedPortStr args w.settings) = none →
          run args w = (Except.ok RC_NO_RUNTIME, resolveWarns args w.settings))
    ∧ (∀ (args : RunArgs) (w : World) (hp : Int),
        pyInt (resolvedPortStr args w.settings) = some hp →
        (detect_container_runtime (some (resolvedRuntimePref args w.settings)) w.which).1 =
          none →
          run args w = (Except.ok RC_NO_RUNTIME, resolveWarns args w.settings))
    ∧ (∀ (args : RunArgs) (w : World) (hp : Int) (runtime : Str),
        pyInt (resolvedPortStr args w.settings) = some hp →
        (detect_container_runtime (some (resolvedRuntimePref args w.settings)) w.which).1 =
          some runtime →
        w.ansibleFound = false →
          run args w = (Except.ok RC_MISSING_DEPENDENCY, resolveWarns args w.settings))
    ∧ run exArgs { exWorld with dispatchOk := false } =
        (Except.error (),
          [Event.containerSetup "podman".toList "ansible_target".toList ":ro,z".toList 2222,
           Event.rolesSetup, Event.collectionsSetup, Event.dispatch none,
           Event.containerStop "podman".toList "ansible_target".toList]) := by
  have hcount : ∀ (args : RunArgs) (w : World),
      countStops (run args w).2 = if containerStarted args w then 1 else 0 := by
    intro args w
    cases hport : pyInt (resolvedPortStr args w.settings) with
    | none =>
      rw [run_port_invalid args w hport]
      simp [containerStarted, hport, countStops_resolveWarns]
    | some hp =>
      cases hdet : detect_container_runtime
          (some (resolvedRuntimePref args w.settings)) w.which with
      | mk o1 vo =>
        cases o1 with
        | none =>
          rw [run_no_runtime args w hp vo hport hdet]
          simp [containerStarted, hport, hdet, countStops_resolveWarns]
        | some runtime =>
          cases hans : w.ansibleFound with
          | false =>
            rw [run_no_ansible args w hp runtime vo hport hdet hans]
            simp [containerStarted, hport, hdet, hans, countStops_resolveWarns]
          | true =>
            cases hssh : w.sshOk with
            | false =>
              rw [run_ssh_raise args w hp runtime vo hport hdet hans hssh]
              simp [containerStarted, hport, hdet, hans, hssh, countStops_resolveWarns]
            | true =>
              rw [run_reached_eq args w hp runtime vo hport hdet hans hssh]
              have hcs : containerStarted args w =
                  (!args.skip_container && w.containerSetupOk) := by
                simp [containerStarted, hport, hdet, hans, hssh]
              rw [countStops_append, countStops_append, countStops_resolveWarns,
                countStops_tryBody, tryBody_started, hcs]
              cases hb : (!args.skip_container && w.containerSetupOk) with
              | false => simp [countStops]
              | true => simp [countStops, isStopEv, List.filter]
  refine ⟨hcount, ?_, ?_, ?_, ?_, ?_⟩
  · intro args w hcs
    have h := hcs
    simp only [containerStarted, Bool.and_eq_true] at h
    obtain ⟨⟨⟨⟨⟨hport', hdet'⟩, hans⟩, hssh⟩, hskip⟩, hcso⟩ := h
    obtain ⟨hp, hport⟩ := Option.isSome_iff_exists.mp hport'
    cases hdet2 : detect_container_runtime
        (some (resolvedRuntimePref args w.settings)) w.which with
    | mk o1 vo =>
      cases o1 with
      | none => rw [hdet2] at hdet'; exact absurd hdet' (by simp)
      | some runtime =>
        rw [run_reached_eq args w hp runtime vo hport hdet2 hans hssh]
        refine ⟨runtime, ?_⟩
        rw [tryBody_started]
        rw [hskip, hcso]
        simp only [Bool.and_self, if_true]
        rw [List.getLast?_concat]
  · intro args w hport
    exact run_port_invalid args w hport
  · intro args w hp hport h1
    cases hdet : detect_container_runtime
        (some (resolvedRuntimePref args w.settings)) w.which with
    | mk o1 vo =>
      rw [hdet] at h1
      cases o1 with
      | none => exact run_no_runtime args w hp vo hport hdet
      | some r => cases h1
  · intro args w hp runtime hport h1 hans
    cases hdet : detect_container_runtime
        (some (resolvedRuntimePref args w.settings)) w.which with
    | mk o1 vo =>
      rw [hdet] at h1
      cases o1 with
      | none => cases h1
      | some r =>
        cases h1
        exact run_no_ansible args w hp runtime vo hport hdet hans
  · rfl

/-- The spec's layering: the CLI override when supplied and non-empty, else
the persisted value when present and non-empty, else the default. -/
def layeredValue (cli pers : Option Str) (dflt : Str) : Str :=
  if pyTruthy cli then cli.getD []
  else if pyTruthy pers then pers.getD []
  else dflt

theorem pyOrStr_eq_layered (cli pers : Option Str) (dflt : Str) :
    pyOrStr cli (pyOrStr pers dflt) = layeredValue cli pers dflt := by
  cases cli with
  | none =>
    cases pers with
    | none => rfl
    | some s => by_cases hs : s.isEmpty <;> simp [pyOrStr, layeredValue, pyTruthy, hs]
  | some c =>
    by_cases hc : c.isEmpty
    · cases pers with
      | none => simp [pyOrStr, layeredValue, pyTruthy, hc]
      | some s => by_cases hs : s.isEmpty <;> simp [pyOrStr, layeredValue, pyTruthy, hc, hs]
    · simp [pyOrStr, layeredValue, pyTruthy, hc]

theorem mem_warnFor_iff (s : Str) (cli pers : Option Str) (e : Event) :
    e ∈ warnFor s cli pers ↔
      pyTruthy cli = true ∧ pyTruthy pers = true ∧ cli.getD [] ≠ pers.getD [] ∧
        e = Event.warn s (pers.getD []) (cli.getD []) := by
  unfold warnFor
  split
  · rename_i hcond
    simp only [Bool.and_eq_true, decide_eq_true_eq] at hcond
    obtain ⟨⟨h1, h2⟩, h3⟩ := hcond
    simp only [List.mem_singleton, h1, h2, true_and]
    constructor
    · intro he
      exact ⟨h3, he⟩
    · intro h
      exact h.2
  · rename_i hcond
    simp only [List.not_mem_nil, false_iff, not_and]
    intro h1 h2 h3
    exact absurd (by simp [h1, h2, h3]) hcond

theorem mem_resolveWarns_iff (args : RunArgs) (settings : EnvMap) (e : Event) :
    e ∈ resolveWarns args settings ↔
      e ∈ warnFor "CONTAINER_RUNTIME".toList args.container_runtime
          (dictGet settings "CONTAINER_RUNTIME".toList) ∨
      e ∈ warnFor "CONTAINER_NAME".toList args.container_name
          (dictGet settings "CONTAINER_NAME".toList) ∨
      e ∈ warnFor "CONTAINER_HOST_PORT".toList args.container_host_port
          (dictGet settings "CONTAINER_HOST_PORT".toList) := by
  simp [resolveWarns, List.mem_append, or_assoc]

theorem run_warns_prefix (args : RunArgs) (w : World) :
    ∃ rest, (run args w).2 = resolveWarns args w.settings ++ rest ∧
      ∀ e ∈ rest, isWarnEv e = false := by
  cases hport : pyInt (resolvedPortStr args w.settings) with
  | none =>
    refine ⟨[], ?_, by simp⟩
    rw [run_port_invalid args w hport, List.append_nil]
  | some hp =>
    cases hdet : detect_container_runtime
        (some (resolvedRuntimePref args w.settings)) w.which with
    | mk o1 vo =>
      cases o1 with
      | none =>
        refine ⟨[], ?_, by simp⟩
        rw [run_no_runtime args w hp vo hport hdet, List.append_nil]
      | some runtime =>
        cases hans : w.ansibleFound with
        | false =>
          refine ⟨[], ?_, by simp⟩
          rw [run_no_ansible args w hp runtime vo hport hdet hans, List.append_nil]
        | true =>
          cases hssh : w.sshOk with
          | false =>
            refine ⟨[], ?_, by simp⟩
            rw [run_ssh_raise args w hp runtime vo hport hdet hans hssh, List.append_nil]
          | true =>
            rw [run_reached_eq args w hp runtime vo hport hdet hans hssh]
            refine ⟨(tryBody args w runtime (resolvedName args w.settings)
                (pyOrStr vo ":ro".toList) hp).2.2 ++
              (if (tryBody args w runtime (resolvedName args w.settings)
                  (pyOrStr vo ":ro".toList) hp).2.1 then
                [Event.containerStop runtime (resolvedName args w.settings)] else []),
              by rw [List.append_assoc], ?_⟩
            intro e he
            rcases List.mem_append.mp he with h | h
            · exact (tryBody_events args w runtime _ _ hp e h).2
            · split at h
              · simp only [List.mem_singleton] at h
                subst h
                rfl
              · cases h

theorem afterContainer_eq (args : RunArgs) (w : World) (pre : List Event)
    (hr : w.rolesOk = true) (hc : w.collectionsOk = true) :
    afterContainer args w pre =
      (!w.dispatchOk,
        pre ++ [Event.rolesSetup, Event.collectionsSetup,
          Event.dispatch (dispatchFlag args)]) := by
  simp [afterContainer, hr, hc]

theorem tryBody_eq_skip (args : RunArgs) (w : World) (r n v : Str) (hp : Int)
    (hs : args.skip_container = true) (hr : w.rolesOk = true) (hc : w.collectionsOk = true) :
    tryBody args w r n v hp =
      (!w.dispatchOk, false,
        [Event.rolesSetup, Event.collectionsSetup, Event.dispatch (dispatchFlag args)]) := by
  rw [tryBody, if_pos hs]
  rw [afterContainer_eq args w [] hr hc]
  rfl

theorem tryBody_eq_container (args : RunArgs) (w : World) (r n v : Str) (hp : Int)
    (hs : args.skip_container = false) (hcso : w.containerSetupOk = true)
    (hr : w.rolesOk = true) (hc : w.collectionsOk = true) :
    tryBody args w r n v hp =
      (!w.dispatchOk, true,
        [Event.containerSetup r n v hp, Event.rolesSetup, Event.collectionsSetup,
          Event.dispatch (dispatchFlag args)]) := by
  rw [tryBody, if_neg (by simp [hs]), if_neg (by simp [hcso])]
  rw [afterContainer_eq args w [Event.containerSetup r n v hp] hr hc]
  rfl

theorem findSome?_append_of_none {α β : Type} (f : α → Option β) (l₁ l₂ : List α)
    (h : ∀ e ∈ l₁, f e = none) :
    (l₁ ++ l₂).findSome? f = l₂.findSome? f := by
  induction l₁ with
  | nil => rfl
  | cons a l ih =>
    rw [List.cons_append, List.findSome?_cons, h a (List.mem_cons_self a l)]
    exact ih (fun e he => h e (List.mem_cons_of_mem a he))

theorem dispatchScan_resolveWarns (args : RunArgs) (settings : EnvMap) :
    ∀ e ∈ resolveWarns args settings,
      (fun e => match e with
        | Event.dispatch l => some l
        | _ => none) e = (none : Option (Option Str)) := by
  intro e he
  rcases (mem_resolveWarns_iff args settings e).mp he with h | h | h <;>
    · obtain ⟨_, _, _, he'⟩ := (mem_warnFor_iff _ _ _ _).mp h
      subst he'
      rfl

theorem dispatchedLimit_run (args : RunArgs) (w : World)
    (h : reachesDispatch args w = true) :
    dispatchedLimit (run args w).2 = some (dispatchFlag args) := by
  have h' := h
  simp only [reachesDispatch, Bool.and_eq_true] at h'
  obtain ⟨⟨⟨⟨⟨⟨hport', hdet'⟩, hans⟩, hssh⟩, hsc⟩, hr⟩, hc⟩ := h'
  obtain ⟨hp, hport⟩ := Option.isSome_iff_exists.mp hport'
  cases hdet2 : detect_container_runtime
      (some (resolvedRuntimePref args w.settings)) w.which with
  | mk o1 vo =>
    cases o1 with
    | none => rw [hdet2] at hdet'; exact absurd hdet' (by simp)
    | some runtime =>
      rw [run_reached_eq args w hp runtime vo hport hdet2 hans hssh]
      by_cases hs : args.skip_container = true
      · rw [tryBody_eq_skip args w runtime (resolvedName args w.settings)
          (pyOrStr vo ":ro".toList) hp hs hr hc]
        unfold dispatchedLimit
        rw [List.append_assoc,
          findSome?_append_of_none _ _ _ (dispatchScan_resolveWarns args w.settings)]
        simp [List.findSome?_cons]
      · have hs' : args.skip_container = false := by simpa using hs
        have hcso : w.containerSetupOk = true := by
          rcases Bool.or_eq_true _ _ |>.mp hsc with h1 | h1
          · exact absurd h1 (by simp [hs'])
          · exact h1
        rw [tryBody_eq_container args w runtime (resolvedName args w.settings)
          (pyOrStr vo ":ro".toList) hp hs' hcso hr hc]
        unfold dispatchedLimit
        rw [List.append_assoc,
          findSome?_append_of_none _ _ _ (dispatchScan_resolveWarns args w.settings)]
        simp [List.findSome?_cons]

theorem dispatchFlag_skip (args : RunArgs) (hs : args.skip_container = true) :
    dispatchFlag args =
      some (if pyTruthy args.limit = true then args.limit.getD []
        else "localhost".toList) := by
  by_cases ht : pyTruthy args.limit = true
  · unfold dispatchFlag
    simp [hs, ht]
  · have ht' : pyTruthy args.limit = false := by simpa using ht
    unfold dispatchFlag
    rw [hs, ht']
    simp only [Bool.not_false, Bool.and_self, if_true, Bool.false_eq_true, if_false]
    decide

theorem dispatchFlag_truthy (args : RunArgs) (ht : pyTruthy args.limit = true) :
    dispatchFlag args = some (args.limit.getD []) := by
  unfold dispatchFlag
  simp [ht]

theorem not_mem_warnFor_of_ne (k k' : Str) (c p : Option Str) (o n : Str) (h : k ≠ k') :
    Event.warn k o n ∉ warnFor k' c p := by
  intro hm
  obtain ⟨_, _, _, he⟩ := (mem_warnFor_iff _ _ _ _).mp hm
  injection he with h1 _ _
  exact h h1

theorem mem_warnFor_self_iff (k : Str) (c p : Option Str) (o n : Str) :
    Event.warn k o n ∈ warnFor k c p ↔
      pyTruthy c = true ∧ pyTruthy p = true ∧ n ≠ o ∧
        o = p.getD [] ∧ n = c.getD [] := by
  rw [mem_warnFor_iff]
  constructor
  · intro ⟨h1, h2, h3, he⟩
    injection he with _ ho hn
    subst ho
    subst hn
    exact ⟨h1, h2, h3, rfl, rfl⟩
  · intro ⟨h1, h2, h3, h4, h5⟩
    subst h4
    subst h5
    exact ⟨h1, h2, h3, rfl⟩

/-- C2 (amended).  Each of the three settings resolves to the CLI override
when one is supplied and non-empty, else the persisted value when present
and non-empty, else the hardcoded default (conjunct 1, `layeredValue` being
the spec's layering).  A warning naming the setting, the persisted value and
the overriding value is in the trace exactly when a non-empty override and a
non-empty persisted value differ (conjuncts 2-4), and all warnings precede
every other event of the workflow's trace (conjunct 5).  Conjunct 6 replays
the override scenario: persisted `docker`, CLI `podman` — the warning is
emitted first and the container runs under the override. -/
theorem run_override_resolution :
    (∀ (args : RunArgs) (settings : EnvMap),
        resolvedRuntimePref args settings =
          layeredValue args.container_runtime
            (dictGet settings "CONTAINER_RUNTIME".toList) DEFAULT_CONTAINER_RUNTIME ∧
        resolvedName args settings =
          layeredValue args.container_name
            (dictGet settings "CONTAINER_NAME".toList) DEFAULT_CONTAINER_NAME ∧
        resolvedPortStr args settings =
          layeredValue args.container_host_port
            (dictGet settings "CONTAINER_HOST_PORT".toList) DEFAULT_HOST_PORT_STR)
    ∧ (∀ (args : RunArgs) (settings : EnvMap) (o n : Str),
        Event.warn "CONTAINER_RUNTIME".toList o n ∈ resolveWarns args settings ↔
          pyTruthy args.container_runtime = true ∧
          pyTruthy (dictGet settings "CONTAINER_RUNTIME".toList) = true ∧ n ≠ o ∧
          o = (dictGet settings "CONTAINER_RUNTIME".toList).getD [] ∧
          n = args.container_runtime.getD [])
    ∧ (∀ (args : RunArgs) (settings : EnvMap) (o n : Str),
        Event.warn "CONTAINER_NAME".toList o n ∈ resolveWarns args settings ↔
          pyTruthy args.container_name = true ∧
          pyTruthy (dictGet settings "CONTAINER_NAME".toList) = true ∧ n ≠ o ∧
          o = (dictGet settings "CONTAINER_NAME".toList).getD [] ∧
          n = args.container_name.getD [])
    ∧ (∀ (args : RunArgs) (settings : EnvMap) (o n : Str),
        Event.warn "CONTAINER_HOST_PORT".toList o n ∈ resolveWarns args settings ↔
          pyTruthy args.container_host_port = true ∧
          pyTruthy (dictGet settings "CONTAINER_HOST_PORT".toList) = true ∧ n ≠ o ∧
          o = (dictGet settings "CONTAINER_HOST_PORT".toList).getD [] ∧
          n = args.container_host_port.getD [])
    ∧ (∀ (args : RunArgs) (w : World),
        ∃ rest, (run args w).2 = resolveWarns args w.settings ++ rest ∧
          ∀ e ∈ rest, isWarnEv e = false)
    ∧ run { exArgs with container_runtime := some "podman".toList }
        { exWorld with settings := [("CONTAINER_RUNTIME".toList, "docker".toList)] } =
        (Except.ok RC_SUCCESS,
          [Event.warn "CONTAINER_RUNTIME".toList "docker".toList "podman".toList,
           Event.containerSetup "podman".toList "ansible_target".toList ":ro,z".toList 2222,
           Event.rolesSetup, Event.collectionsSetup, Event.dispatch none,
           Event.containerStop "podman".toList "ansible_target".toList]) := by
  refine ⟨?_, ?_, ?_, ?_, run_warns_prefix, by rfl⟩
  · intro args settings
    exact ⟨pyOrStr_eq_layered _ _ _, pyOrStr_eq_layered _ _ _, pyOrStr_eq_layered _ _ _⟩
  · intro args settings o n
    rw [mem_resolveWarns_iff]
    have h2 := not_mem_warnFor_of_ne "CONTAINER_RUNTIME".toList "CONTAINER_NAME".toList
      args.container_name (dictGet settings "CONTAINER_NAME".toList) o n (by decide)
    have h3 := not_mem_warnFor_of_ne "CONTAINER_RUNTIME".toList "CONTAINER_HOST_PORT".toList
      args.container_host_port (dictGet settings "CONTAINER_HOST_PORT".toList) o n (by decide)
    simp only [h2, h3, or_false]
    exact mem_warnFor_self_iff _ _ _ _ _
  · intro args settings o n
    rw [mem_resolveWarns_iff]
    have h1 := not_mem_warnFor_of_ne "CONTAINER_NAME".toList "CONTAINER_RUNTIME".toList
      args.container_runtime (dictGet settings "CONTAINER_RUNTIME".toList) o n (by decide)
    have h3 := not_mem_warnFor_of_ne "CONTAINER_NAME".toList "CONTAINER_HOST_PORT".toList
      args.container_host_port (dictGet settings "CONTAINER_HOST_PORT".toList) o n (by decide)
    simp only [h1, h3, false_or, or_false]
    exact mem_warnFor_self_iff _ _ _ _ _
  · intro args settings o n
    rw [mem_resolveWarns_iff]
    have h1 := not_mem_warnFor_of_ne "CONTAINER_HOST_PORT".toList "CONTAINER_RUNTIME".toList
      args.container_runtime (dictGet settings "CONTAINER_RUNTIME".toList) o n (by decide)
    have h2 := not_mem_warnFor_of_ne "CONTAINER_HOST_PORT".toList "CONTAINER_NAME".toList
      args.container_name (dictGet settings "CONTAINER_NAME".toList) o n (by decide)
    simp only [h1, h2, false_or]
    exact mem_warnFor_self_iff _ _ _ _ _

/-- C2, counterexample to the claim as stated: with a persisted but empty
`CONTAINER_NAME` and no CLI override, the effective value is the hardcoded
default, not the persisted value — "persisted value when present" holds only
for non-empty persisted values. -/
theorem run_override_resolution_cex :
    dictGet [("CONTAINER_NAME".toList, ([] : Str))] "CONTAINER_NAME".toList =
      some ([] : Str) ∧
    exArgs.container_name = none ∧
    resolvedName exArgs [("CONTAINER_NAME".toList, ([] : Str))] =
      "ansible_target".toList ∧
    "ansible_target".toList ≠ ([] : Str) := by
  exact ⟨rfl, rfl, rfl, by decide⟩

/-- C8 (amended).  On every path that reaches the playbook dispatch in
container-skip mode, the dispatched `-l` value is the caller's limit when it
is supplied and non-empty, else `localhost`; a supplied non-empty limit is
dispatched unchanged in any mode.  The last conjunct is the skip-mode
default at a concrete invocation. -/
theorem run_dispatch_limit :
    (∀ (args : RunArgs) (w : World), reachesDispatch args w = true →
        args.skip_container = true →
        dispatchedLimit (run args w).2 =
          some (some (if pyTruthy args.limit = true then args.limit.getD []
            else "localhost".toList)))
    ∧ (∀ (args : RunArgs) (w : World), reachesDispatch args w = true →
        pyTruthy args.limit = true →
        dispatchedLimit (run args w).2 = some (some (args.limit.getD [])))
    ∧ dispatchedLimit (run { exArgs with skip_container := true } exWorld).2 =
        some (some "localhost".toList) := by
  refine ⟨?_, ?_, by rfl⟩
  · intro args w hreach hs
    rw [dispatchedLimit_run args w hreach, dispatchFlag_skip args hs]
  · intro args w hreach ht
    rw [dispatchedLimit_run args w hreach, dispatchFlag_truthy args ht]

/-- C8, counterexample to the claim as stated: a supplied empty limit
(`--limit ""`) in container-skip mode is not passed unchanged — the dispatch
carries `localhost` instead. -/
theorem run_dispatch_limit_cex :
    ({ exArgs with skip_container := true, limit := some ([] : Str) } : RunArgs).limit =
      some ([] : Str) ∧
    dispatchedLimit (run { exArgs with skip_container := true, limit := some ([] : Str) }
      exWorld).2 = some (some "localhost".toList) ∧
    some (some "localhost".toList) ≠ (some (some ([] : Str)) : Option (Option Str)) := by
  exact ⟨rfl, rfl, by decide⟩

theorem mem_of_mem_pyStrip {c : Char} {s : Str} (h : c ∈ pyStrip s) : c ∈ s := by
  unfold pyStrip at h
  rw [List.mem_reverse] at h
  have h2 := (List.dropWhile_sublist (l := (s.dropWhile pyIsSpace).reverse)
    (p := pyIsSpace)).mem h
  rw [List.mem_reverse] at h2
  exact (List.dropWhile_sublist (l := s) (p := pyIsSpace)).mem h2

theorem loadLine_no_sep (data : EnvMap) (l : Str)
    (hc : (pyStrip l).contains '=' = false) : loadLine data l = data := by
  unfold loadLine
  dsimp only
  split_ifs with h1 h2 h3
  · rfl
  · rfl
  · rfl
  · simp only [Bool.not_eq_true'] at h3
    exact absurd hc h3

theorem keys_foldl_loadLine :
    ∀ (ls : List Str) (acc : EnvMap) (k : Str),
      k ∈ dictKeys (ls.foldl loadLine acc) →
        k ∈ dictKeys acc ∨ ∃ raw ∈ ls, raw.contains '=' = true := by
  intro ls
  induction ls with
  | nil => intro acc k hk; exact Or.inl hk
  | cons l rest ih =>
    intro acc k hk
    rw [List.foldl_cons] at hk
    rcases ih (loadLine acc l) k hk with h | h
    · by_cases hc : (pyStrip l).contains '=' = true
      · refine Or.inr ⟨l, List.mem_cons_self l rest, ?_⟩
        have : ('=' : Char) ∈ pyStrip l := by
          simpa using hc
        have hm : ('=' : Char) ∈ l := mem_of_mem_pyStrip this
        simpa using hm
      · rw [loadLine_no_sep acc l (by simpa using hc)] at h
        exact Or.inl h
    · obtain ⟨raw, hraw, hsep⟩ := h
      exact Or.inr ⟨raw, List.mem_cons_of_mem l hraw, hsep⟩

/-- C10.  `load_env_file` silently ignores every non-blank, non-comment line
without an `=` separator: processing such a line leaves the map unchanged
(conjunct 1 — `loadLine` is total, so no error is possible either), every key
of the returned map comes from a line containing at least one `=`
(conjunct 2), and a separator-less line in a concrete file contributes
nothing (conjunct 3). -/
theorem load_env_file_ignores_separatorless :
    (∀ (data : EnvMap) (raw : Str),
        (pyStrip raw).isEmpty = false →
        (pyStrip raw).head? ≠ some '#' →
        (pyStrip raw).contains '=' = false →
        loadLine data raw = data)
    ∧ (∀ (content k : Str), k ∈ dictKeys (load_env_file content) →
        ∃ raw ∈ pySplitlines content, raw.contains '=' = true)
    ∧ load_env_file "FOO\nA=1\n".toList = [("A".toList, "1".toList)] := by
  refine ⟨?_, ?_, by rfl⟩
  · intro data raw _ _ hc
    exact loadLine_no_sep data raw hc
  · intro content k hk
    unfold load_env_file at hk
    rcases keys_foldl_loadLine (pySplitlines content) [] k hk with h | h
    · exact absurd h (by simp [dictKeys])
    · exact h

theorem dictGet_activateEnvValues (persisted : EnvMap) (pb : Str) (vp : Option Str)
    (k : Str) (hk : k ∉ dictKeys (build_activation_env pb))
    (hv : k ≠ "VENV_PYTHON".toList) :
    dictGet (activateEnvValues persisted pb vp) k = dictGet persisted k := by
  unfold activateEnvValues
  cases vp with
  | none => exact dictGet_dictUpdate_not_mem _ _ _ hk
  | some p =>
    rw [dictGet_dictSet_ne _ _ _ _ hv]
    exact dictGet_dictUpdate_not_mem _ _ _ hk

/-- C4 (amended).  The activation write-back preserves the persisted value of
every key it does not explicitly supply (the activation keys plus
`VENV_PYTHON`) — conjuncts 1 and 4; it emits no warning on any path
(conjunct 2), so a divergence between a persisted value and a supplied
activation value is surfaced only by the run workflow's override resolution,
whose warning fires exactly when a non-empty CLI override and a non-empty
persisted value differ (conjunct 3). -/
theorem settings_preservation :
    (∀ (persisted : EnvMap) (pb : Str) (ve ut co io : Bool)
        (cands : List (Str × Version)) (code : Nat) (m : EnvMap) (wl : List Event)
        (k : Str),
        activate persisted pb ve ut cands co io = Except.ok (code, m, wl) →
        k ∉ dictKeys (build_activation_env pb) →
        k ≠ "VENV_PYTHON".toList →
        dictGet m k = dictGet persisted k)
    ∧ (∀ (persisted : EnvMap) (pb : Str) (ve ut co io : Bool)
        (cands : List (Str × Version)) (code : Nat) (m : EnvMap) (wl : List Event),
        activate persisted pb ve ut cands co io = Except.ok (code, m, wl) → wl = [])
    ∧ (∀ (k : Str) (cli pers : Option Str),
        warnFor k cli pers ≠ [] ↔
          pyTruthy cli = true ∧ pyTruthy pers = true ∧ cli.getD [] ≠ pers.getD [])
    ∧ (activate [("MY_KEY".toList, "x".toList)] "/p".toList true false [] true
        true).toOption.map (fun r => dictGet r.2.1 "MY_KEY".toList) =
        some (some "x".toList) := by
  have hok : ∀ (persisted : EnvMap) (pb : Str) (ve ut co io : Bool)
      (cands : List (Str × Version)) (code : Nat) (m : EnvMap) (wl : List Event),
      activate persisted pb ve ut cands co io = Except.ok (code, m, wl) →
        m = activateEnvValues persisted pb (activateVenv pb ve ut cands co) ∧ wl = [] := by
    intro persisted pb ve ut co io cands code m wl h
    unfold activate at h
    dsimp only at h
    split at h
    · cases h
    · injection h with h1
      injection h1 with _ h2
      injection h2 with h3 h4
      exact ⟨h3.symm, h4.symm⟩
  refine ⟨?_, ?_, ?_, by rfl⟩
  · intro persisted pb ve ut co io cands code m wl k h hk hv
    rw [(hok _ _ _ _ _ _ _ _ _ _ h).1]
    exact dictGet_activateEnvValues _ _ _ _ hk hv
  · intro persisted pb ve ut co io cands code m wl h
    exact (hok _ _ _ _ _ _ _ _ _ _ h).2
  · intro k cli pers
    unfold warnFor
    split
    · rename_i hcond
      simp only [Bool.and_eq_true, decide_eq_true_eq] at hcond
      obtain ⟨⟨h1, h2⟩, h3⟩ := hcond
      simp [h1, h2, h3]
    · rename_i hcond
      constructor
      · intro h
        exact absurd rfl h
      · intro ⟨h1, h2, h3⟩
        exact absurd (by simp [h1, h2, h3]) hcond

/-- C4, counterexample to the claim as stated: `activate` over a persisted
`CONTAINER_RUNTIME=docker` rewrites the key to its own `podman` value while
emitting no warning — the divergence between the persisted and the newly
supplied value is not surfaced before the new value takes effect. -/
theorem settings_preservation_cex :
    (activate [("CONTAINER_RUNTIME".toList, "docker".toList)] "/p".toList true false []
        true true).toOption.map
        (fun r => dictGet r.2.1 "CONTAINER_RUNTIME".toList) =
      some (some "podman".toList) ∧
    (activate [("CONTAINER_RUNTIME".toList, "docker".toList)] "/p".toList true false []
        true true).toOption.map (fun r => r.2.2) = some ([] : List Event) ∧
    "podman".toList ≠ "docker".toList := by
  exact ⟨rfl, rfl, by decide⟩

/-- C5.  The code defines `RETURN_CODES["NO_PYTHON"] = 3` for exactly the
no-suitable-interpreter condition, yet `activate` returns
`RETURN_CODES["SUCCESS"]` (0) when no venv exists and no interpreter in
`[3.10.0, 3.15.0)` is found (here: the only candidate is 3.9.0): the
specified exit status 3 is never produced. -/
theorem activate_no_python_returns_success :
    activate [] "/proj".toList false false
        [("python3".toList, ((3 : Nat), (9 : Nat), (0 : Nat)))] true true =
      Except.ok (RC_SUCCESS,
        activateEnvValues [] "/proj".toList none, []) ∧
    RC_NO_PYTHON = 3 ∧ RC_SUCCESS = 0 ∧ RC_SUCCESS ≠ RC_NO_PYTHON := by
  exact ⟨rfl, rfl, rfl, by decide⟩

/-! ### The configuration store round trip -/

theorem strLe_total : ∀ a b : Str, strLe a b = true ∨ strLe b a = true := by
  intro a
  induction a with
  | nil => intro b; exact Or.inl rfl
  | cons x xs ih =>
    intro b
    cases b with
    | nil => exact Or.inr rfl
    | cons y ys =>
      by_cases hxy : x.toNat = y.toNat
      · rcases ih ys with h | h
        · left
          simp [strLe, hxy, h]
        · right
          simp [strLe, hxy.symm, h]
      · rcases Nat.lt_or_ge x.toNat y.toNat with h | h
        · left
          simp [strLe, hxy, h]
        · have h2 : y.toNat < x.toNat :=
            Nat.lt_of_le_of_ne h (fun he => hxy he.symm)
          have hyx : ¬(y.toNat = x.toNat) := fun he => hxy he.symm
          right
          simp [strLe, hyx, h2]

theorem strLe_trans : ∀ a b c : Str, strLe a b = true → strLe b c = true →
    strLe a c = true := by
  intro a
  induction a with
  | nil => intro b c _ _; rfl
  | cons x xs ih =>
    intro b c hab hbc
    cases b with
    | nil => simp [strLe] at hab
    | cons y ys =>
      cases c with
      | nil => simp [strLe] at hbc
      | cons z zs =>
        simp only [strLe] at hab hbc ⊢
        by_cases hxy : x.toNat = y.toNat
        · by_cases hyz : y.toNat = z.toNat
          · rw [if_pos hxy] at hab
            rw [if_pos hyz] at hbc
            rw [if_pos (hxy.trans hyz)]
            exact ih ys zs hab hbc
          · rw [if_neg hyz] at hbc
            have hlt : y.toNat < z.toNat := by simpa using hbc
            have hxz : x.toNat < z.toNat := hxy ▸ hlt
            rw [if_neg (Nat.ne_of_lt hxz)]
            simpa using hxz
        · rw [if_neg hxy] at hab
          have hlt : x.toNat < y.toNat := by simpa using hab
          by_cases hyz : y.toNat = z.toNat
          · have hxz : x.toNat < z.toNat := hyz ▸ hlt
            rw [if_neg (Nat.ne_of_lt hxz)]
            simpa using hxz
          · rw [if_neg hyz] at hbc
            have hlt2 : y.toNat < z.toNat := by simpa using hbc
            have hxz : x.toNat < z.toNat := Nat.lt_trans hlt hlt2
            rw [if_neg (Nat.ne_of_lt hxz)]
            simpa using hxz

instance : IsTotal (Str × Str) pairLe :=
  ⟨fun p q => by
    rcases strLe_total p.1 q.1 with h | h
    · exact Or.inl h
    · exact Or.inr h⟩

instance : IsTrans (Str × Str) pairLe :=
  ⟨fun _ _ _ h1 h2 => strLe_trans _ _ _ h1 h2⟩

/-- A string that survives the store's round trip as-is: no surrounding
whitespace (`strip` leaves it unchanged from either end) and no character
`splitlines` treats as a line boundary. -/
def goodStr (s : Str) : Prop :=
  s.dropWhile pyIsSpace = s ∧ s.reverse.dropWhile pyIsSpace = s.reverse ∧
    ∀ c ∈ s, isLineBoundary c = false

/-- A key/value pair that survives the round trip: both components good,
the key free of the `=` separator and not opening a comment. -/
def goodPair (p : Str × Str) : Prop :=
  goodStr p.1 ∧ goodStr p.2 ∧ '=' ∉ p.1 ∧ p.1.head? ≠ some '#'

/-- A settings map the round-trip law quantifies over: wellformed pairs and
unique keys (every map produced by `load_env_file` has unique keys). -/
def goodEnv (m : EnvMap) : Prop :=
  (∀ p ∈ m, goodPair p) ∧ (dictKeys m).Nodup

theorem dropWhile_cons_of_neg {p : Char → Bool} {c : Char} {l : Str}
    (h : p c = false) : (c :: l).dropWhile p = c :: l := by
  simp [List.dropWhile_cons, h]

theorem head_false_of_dropWhile_fixed {p : Char → Bool} :
    ∀ {l : Str}, l.dropWhile p = l → ∀ c, l.head? = some c → p c = false := by
  intro l h c hc
  cases l with
  | nil => cases hc
  | cons d t =>
    have hdc : d = c := by simpa using hc
    subst hdc
    by_contra hp
    have hp' : p d = true := by simpa using hp
    rw [List.dropWhile_cons, if_pos hp'] at h
    have hlen := congrArg List.length h
    have hle := (List.dropWhile_sublist (l := t) p).length_le
    simp only [List.length_cons] at hlen
    omega

theorem pyStrip_fixed {s : Str} (h1 : s.dropWhile pyIsSpace = s)
    (h2 : s.reverse.dropWhile pyIsSpace = s.reverse) : pyStrip s = s := by
  unfold pyStrip
  rw [h1, h2, List.reverse_reverse]

theorem lineOf_boundary_free {p : Str × Str} (hp : goodPair p) :
    ∀ c ∈ lineOf p, isLineBoundary c = false := by
  intro c hc
  rcases List.mem_append.mp hc with h | h
  · exact hp.1.2.2 c h
  · rcases List.mem_cons.mp h with h | h
    · subst h
      decide
    · exact hp.2.1.2.2 c h

theorem pyStrip_lineOf {p : Str × Str} (hp : goodPair p) :
    pyStrip (lineOf p) = lineOf p := by
  obtain ⟨⟨hk1, hk2, _⟩, ⟨hv1, hv2, _⟩, _, _⟩ := hp
  apply pyStrip_fixed
  · cases hk : p.1 with
    | nil =>
      simp only [lineOf, hk, List.nil_append]
      exact dropWhile_cons_of_neg (by decide)
    | cons c k' =>
      have hc : pyIsSpace c = false :=
        head_false_of_dropWhile_fixed hk1 c (by rw [hk]; rfl)
      simp only [lineOf, hk, List.cons_append]
      exact dropWhile_cons_of_neg hc
  · have hrev : (lineOf p).reverse = p.2.reverse ++ '=' :: p.1.reverse := by
      simp [lineOf]
    rw [hrev]
    cases hv : p.2.reverse with
    | nil =>
      simp only [List.nil_append]
      exact dropWhile_cons_of_neg (by decide)
    | cons d t =>
      have hd : pyIsSpace d = false :=
        head_false_of_dropWhile_fixed hv2 d (by rw [hv]; rfl)
      simp only [List.cons_append]
      exact dropWhile_cons_of_neg hd

theorem takeWhile_key {k v : Str} (hk : '=' ∉ k) :
    (k ++ '=' :: v).takeWhile (fun c => c ≠ '=') = k := by
  induction k with
  | nil => simp [List.takeWhile_cons]
  | cons c k' ih =>
    have hc : c ≠ '=' := fun he => hk (he ▸ List.mem_cons_self c k')
    rw [List.cons_append, List.takeWhile_cons, if_pos (by simp [hc])]
    rw [ih (fun hm => hk (List.mem_cons_of_mem _ hm))]

theorem dropWhile_key {k v : Str} (hk : '=' ∉ k) :
    (k ++ '=' :: v).dropWhile (fun c => c ≠ '=') = '=' :: v := by
  induction k with
  | nil => simp [List.dropWhile_cons]
  | cons c k' ih =>
    have hc : c ≠ '=' := fun he => hk (he ▸ List.mem_cons_self c k')
    rw [List.cons_append, List.dropWhile_cons, if_pos (by simp [hc])]
    exact ih (fun hm => hk (List.mem_cons_of_mem _ hm))

theorem loadLine_lineOf (data : EnvMap) (p : Str × Str) (hp : goodPair p) :
    loadLine data (lineOf p) = dictSet data p.1 p.2 := by
  obtain ⟨hk, hv, hsep, hhash⟩ := hp
  have hstrip := pyStrip_lineOf ⟨hk, hv, hsep, hhash⟩
  have hne : (lineOf p).isEmpty = false := by
    cases hpk : p.1 <;> simp [lineOf, hpk]
  have hhead : ¬((lineOf p).head? = some '#') := by
    cases hpk : p.1 with
    | nil => simp [lineOf, hpk]
    | cons c k' =>
      have hch : ¬(c = '#') := by
        intro he
        exact hhash (by rw [hpk, he]; rfl)
      simp [lineOf, hpk, hch]
  have hcont : (lineOf p).contains '=' = true := by
    have hmem : ('=' : Char) ∈ lineOf p := by simp [lineOf]
    simpa using hmem
  unfold loadLine
  dsimp only
  rw [hstrip, if_neg (by simp [hne]), if_neg hhead, if_neg (by simp [lineOf])]
  simp only [lineOf]
  rw [takeWhile_key hsep, dropWhile_key hsep, List.tail_cons]
  rw [pyStrip_fixed hk.1 hk.2.1, pyStrip_fixed hv.1 hv.2.1]

theorem splitlinesGo_line :
    ∀ (l s acc : Str), (∀ c ∈ l, isLineBoundary c = false) →
      splitlinesGo (l ++ '\n' :: s) acc false =
        (acc.reverse ++ l) :: splitlinesGo s [] false := by
  intro l
  induction l with
  | nil =>
    intro s acc _
    simp [splitlinesGo, isLineBoundary]
  | cons c l' ih =>
    intro s acc hl
    have hc := hl c (List.mem_cons_self c l')
    have hc1 : ¬(c = '\n') := by
      intro he
      rw [he] at hc
      exact absurd hc (by decide)
    have hc2 : ¬(c = '\r') := by
      intro he
      rw [he] at hc
      exact absurd hc (by decide)
    rw [List.cons_append]
    rw [show splitlinesGo (c :: (l' ++ '\n' :: s)) acc false =
        splitlinesGo (l' ++ '\n' :: s) (c :: acc) false from by
      simp [splitlinesGo, hc, hc1, hc2]]
    rw [ih s (c :: acc) (fun d hd => hl d (List.mem_cons_of_mem c hd))]
    simp

theorem splitlinesGo_joinLines :
    ∀ ls : List Str, ls ≠ [] → (∀ l ∈ ls, ∀ c ∈ l, isLineBoundary c = false) →
      splitlinesGo (joinLines ls ++ ['\n']) [] false = ls ++ [[]] := by
  intro ls
  induction ls with
  | nil => intro h _; exact absurd rfl h
  | cons l ls' ih =>
    intro _ hb
    cases ls' with
    | nil =>
      rw [show joinLines [l] = l from rfl]
      rw [show (l ++ ['\n'] : Str) = l ++ '\n' :: [] from rfl]
      rw [splitlinesGo_line l [] [] (hb l (List.mem_cons_self l []))]
      rfl
    | cons l2 ls'' =>
      rw [show joinLines (l :: l2 :: ls'') = l ++ '\n' :: joinLines (l2 :: ls'') from rfl]
      rw [List.append_assoc]
      rw [show ('\n' :: joinLines (l2 :: ls'') ++ ['\n'] : Str) =
        '\n' :: (joinLines (l2 :: ls'') ++ ['\n']) from rfl]
      rw [splitlinesGo_line l (joinLines (l2 :: ls'') ++ ['\n']) []
        (hb l (List.mem_cons_self l (l2 :: ls'')))]
      rw [ih (by simp) (fun m hm => hb m (List.mem_cons_of_mem l hm))]
      simp

theorem splitlines_of_lines (ls : List Str) (hne : ls ≠ [])
    (hb : ∀ l ∈ ls, ∀ c ∈ l, isLineBoundary c = false) :
    pySplitlines (joinLines ls ++ ['\n']) = ls := by
  unfold pySplitlines
  rw [if_neg (by simp)]
  rw [List.getLast?_concat]
  dsimp only
  rw [if_pos (by decide)]
  rw [splitlinesGo_joinLines ls hne hb]
  rw [List.dropLast_concat]

theorem foldl_loadLine_map :
    ∀ (ps : List (Str × Str)) (acc : EnvMap), (∀ p ∈ ps, goodPair p) →
      List.foldl loadLine acc (ps.map lineOf) =
        List.foldl (fun d p => dictSet d p.1 p.2) acc ps := by
  intro ps
  induction ps with
  | nil => intro acc _; rfl
  | cons p ps' ih =>
    intro acc h
    simp only [List.map_cons, List.foldl_cons]
    rw [loadLine_lineOf acc p (h p (List.mem_cons_self p ps'))]
    exact ih _ (fun q hq => h q (List.mem_cons_of_mem p hq))

theorem foldl_dictSet_append :
    ∀ (ps : List (Str × Str)) (acc : EnvMap), (dictKeys (acc ++ ps)).Nodup →
      List.foldl (fun d p => dictSet d p.1 p.2) acc ps = acc ++ ps := by
  intro ps
  induction ps with
  | nil => intro acc _; simp
  | cons p ps' ih =>
    intro acc h
    have hkeys : (dictKeys acc ++ p.1 :: dictKeys ps').Nodup := by
      simpa [dictKeys] using h
    have hp : p.1 ∉ dictKeys acc := by
      rcases List.nodup_append.mp hkeys with ⟨_, _, hdisj⟩
      intro hmem
      exact hdisj hmem (List.mem_cons_self _ _)
    simp only [List.foldl_cons]
    rw [show dictSet acc p.1 p.2 = acc ++ [p] from by
      rw [dictSet_append_of_not_mem acc p.1 p.2 hp]]
    rw [ih (acc ++ [p]) (by simpa [dictKeys] using h)]
    simp

theorem dictGet_some_mem : ∀ {d : EnvMap} {k v : Str},
    dictGet d k = some v → (k, v) ∈ d := by
  intro d
  induction d with
  | nil => intro k v h; cases h
  | cons p rest ih =>
    intro k v h
    rw [dictGet] at h
    split at h
    · rename_i hp
      injection h with hv
      have hpv : p = (k, v) := by
        cases p
        simp_all
      rw [← hpv]
      exact List.mem_cons_self p rest
    · exact List.mem_cons_of_mem p (ih h)

theorem dictGet_eq_some_of_mem : ∀ {d : EnvMap} {k v : Str},
    (dictKeys d).Nodup → (k, v) ∈ d → dictGet d k = some v := by
  intro d
  induction d with
  | nil => intro k v _ h; cases h
  | cons p rest ih =>
    intro k v hnd hm
    have hnd' : (dictKeys rest).Nodup ∧ p.1 ∉ dictKeys rest := by
      have := hnd
      simp only [dictKeys, List.map_cons, List.nodup_cons] at this
      exact ⟨this.2, this.1⟩
    rcases List.mem_cons.mp hm with h | h
    · rw [← h]
      simp [dictGet]
    · have hk : ¬(p.1 = k) := by
        intro he
        have : k ∈ dictKeys rest := by
          simp only [dictKeys, List.mem_map]
          exact ⟨(k, v), h, rfl⟩
        rw [he] at hnd'
        exact hnd'.2 this
      rw [dictGet, if_neg hk]
      exact ih hnd'.1 h

theorem dictGet_eq_none_iff : ∀ (d : EnvMap) (k : Str),
    dictGet d k = none ↔ k ∉ dictKeys d := by
  intro d
  induction d with
  | nil => intro k; simp [dictGet, dictKeys]
  | cons p rest ih =>
    intro k
    rw [dictGet]
    by_cases hp : p.1 = k
    · simp [hp, dictKeys]
    · simp only [hp, if_false, ih, dictKeys, List.map_cons, List.mem_cons]
      constructor
      · intro h hm
        rcases hm with hm | hm
        · exact hp hm.symm
        · exact h hm
      · intro h hm
        exact h (Or.inr hm)

theorem dictGet_congr_perm {d d' : EnvMap} (hperm : d.Perm d')
    (hnd : (dictKeys d).Nodup) : ∀ k, dictGet d k = dictGet d' k := by
  intro k
  have hkp : (dictKeys d).Perm (dictKeys d') := by
    unfold dictKeys
    exact hperm.map _
  have hnd' : (dictKeys d').Nodup := hkp.nodup_iff.mp hnd
  cases h : dictGet d k with
  | none =>
    rw [dictGet_eq_none_iff] at h
    have : k ∉ dictKeys d' := fun hm => h (hkp.mem_iff.mpr hm)
    rw [(dictGet_eq_none_iff d' k).mpr this]
  | some v =>
    have hm : (k, v) ∈ d := dictGet_some_mem h
    exact ((dictGet_eq_some_of_mem hnd' (hperm.mem_iff.mp hm))).symm

theorem load_write_eq (m : EnvMap) (hg : goodEnv m) :
    load_env_file (write_env_file m) = sortedPairs m := by
  obtain ⟨hgood, hnd⟩ := hg
  have hperm : (sortedPairs m).Perm m := List.perm_insertionSort pairLe m
  have hgood' : ∀ p ∈ sortedPairs m, goodPair p :=
    fun p hp => hgood p (hperm.mem_iff.mp hp)
  have hnd' : (dictKeys (sortedPairs m)).Nodup := by
    have hkp : (dictKeys (sortedPairs m)).Perm (dictKeys m) := by
      unfold dictKeys
      exact hperm.map _
    exact hkp.nodup_iff.mpr hnd
  by_cases hm : sortedPairs m = []
  · rw [write_env_file, hm]
    rfl
  · rw [write_env_file]
    unfold load_env_file
    rw [splitlines_of_lines ((sortedPairs m).map lineOf) (by simpa using hm)
      (by
        intro l hl
        obtain ⟨p, hp, hpl⟩ := List.mem_map.mp hl
        rw [← hpl]
        exact lineOf_boundary_free (hgood' p hp))]
    rw [foldl_loadLine_map (sortedPairs m) [] hgood']
    rw [foldl_dictSet_append (sortedPairs m) [] (by simpa [dictKeys] using hnd')]
    rfl

/-- C6 (amended).  For every wellformed settings map — keys and values
carrying no surrounding whitespace and no line-boundary characters, keys free
of `=` and not starting `#`, keys unique (every map a dict or `load` yields
satisfies the latter) — loading the file written from it returns an equal map
(same value at every key); the loaded list is key-sorted, the file's lines
are exactly the `KEY=VALUE` renderings of its (sorted) pairs when the map is
nonempty, and the file ends with a newline.  The closed conjunct round-trips
a concrete two-key map, keys re-ordered. -/
theorem env_file_roundtrip :
    (∀ m : EnvMap, goodEnv m →
        (∀ k, dictGet (load_env_file (write_env_file m)) k = dictGet m k) ∧
        List.Sorted pairLe (load_env_file (write_env_file m)) ∧
        (m ≠ [] →
          pySplitlines (write_env_file m) =
            (load_env_file (write_env_file m)).map lineOf) ∧
        (write_env_file m).getLast? = some '\n')
    ∧ load_env_file (write_env_file
          [("B".toList, "2".toList), ("A".toList, "1".toList)]) =
        [("A".toList, "1".toList), ("B".toList, "2".toList)] := by
  refine ⟨?_, by rfl⟩
  intro m hg
  have hlw := load_write_eq m hg
  obtain ⟨hgood, hnd⟩ := hg
  have hperm : (sortedPairs m).Perm m := List.perm_insertionSort pairLe m
  have hgood' : ∀ p ∈ sortedPairs m, goodPair p :=
    fun p hp => hgood p (hperm.mem_iff.mp hp)
  have hnd' : (dictKeys (sortedPairs m)).Nodup := by
    have hkp : (dictKeys (sortedPairs m)).Perm (dictKeys m) := by
      unfold dictKeys
      exact hperm.map _
    exact hkp.nodup_iff.mpr hnd
  refine ⟨?_, ?_, ?_, ?_⟩
  · intro k
    rw [hlw]
    exact dictGet_congr_perm hperm hnd' k
  · rw [hlw]
    exact List.sorted_insertionSort pairLe m
  · intro hm
    have hm' : sortedPairs m ≠ [] := by
      intro h0
      have hlen := hperm.length_eq
      rw [h0] at hlen
      exact hm (List.eq_nil_of_length_eq_zero hlen.symm)
    rw [hlw, write_env_file]
    exact splitlines_of_lines ((sortedPairs m).map lineOf) (by simpa using hm')
      (by
        intro l hl
        obtain ⟨p, hp, hpl⟩ := List.mem_map.mp hl
        rw [← hpl]
        exact lineOf_boundary_free (hgood' p hp))
  · rw [write_env_file]
    exact List.getLast?_concat _

/-- C6, counterexample to the claim as stated: the round trip is not the
identity on every map — a value with leading whitespace comes back
stripped. -/
theorem env_file_roundtrip_cex :
    write_env_file [("A".toList, " b".toList)] = "A= b\n".toList ∧
    load_env_file (write_env_file [("A".toList, " b".toList)]) =
      [("A".toList, "b".toList)] ∧
    load_env_file (write_env_file [("A".toList, " b".toList)]) ≠
      [("A".toList, " b".toList)] ∧
    dictGet (load_env_file (write_env_file [("A".toList, " b".toList)])) "A".toList ≠
      dictGet [("A".toList, " b".toList)] "A".toList := by
  exact ⟨rfl, rfl, by decide, by decide⟩

end Sandbox
